import Mathlib

/-!
Shallow embedding of `src/mdf2wav.c`, a RAW CDDA (+subchannel) to WAV track
demultiplexer.  Bytes are modelled as `Nat`; the machine-integer fields of the
C program (`unsigned track_number`, `unsigned num_samples`, the
`unsigned long long` offsets) are modelled as `Nat` reduced modulo `2^32`
resp. `2^64` at every operation that can overflow.  The process environment
(files created in the working directory, the file-descriptor table, and the
stderr diagnostics) is modelled by the `Sys` structure; reads from stdin are
modelled as a list of chunks, each chunk being the byte list delivered by one
`read(0, buf, BLOCK_SIZE)` call (a chunk length of `0` is end-of-file).
-/

namespace Mdf2Wav

/-- `DATA_SIZE` from the source: payload (audio) bytes per sector. -/
def DATA_SIZE : Nat := 2352

/-- `SUBCODE_SIZE` from the source: subchannel bytes per sector. -/
def SUBCODE_SIZE : Nat := 96

/-- `BLOCK_SIZE` from the source: full sector size. -/
def BLOCK_SIZE : Nat := DATA_SIZE + SUBCODE_SIZE

/-- Modulus of the C type `unsigned int` (32 bits). -/
def UINT32_MOD : Nat := 4294967296

/-- Modulus of the C type `unsigned long long` (64 bits). -/
def UINT64_MOD : Nat := 18446744073709551616

/-- `write_le16` from the source: two little-endian bytes of `v`. -/
def le16 (v : Nat) : List Nat := [v % 256, v / 256 % 256]

/-- `write_le32` from the source: four little-endian bytes of `v`. -/
def le32 (v : Nat) : List Nat :=
  [v % 256, v / 256 % 256, v / 65536 % 256, v / 16777216 % 256]

/-- `write_wav_header`'s 44-byte buffer: the RIFF/WAVE header the program
builds for a track with `num_samples` samples (all multiplications follow the
C `uint32_t` arithmetic, i.e. are reduced modulo `2^32`). -/
def wavHeader (num_samples : Nat) : List Nat :=
  [82, 73, 70, 70]
    ++ le32 ((36 + num_samples * 4 % UINT32_MOD) % UINT32_MOD)
    ++ [87, 65, 86, 69]
    ++ [102, 109, 116, 32]
    ++ le32 16
    ++ le16 1
    ++ le16 2
    ++ le32 44100
    ++ le32 176400
    ++ le16 4
    ++ le16 16
    ++ [100, 97, 116, 97]
    ++ le32 (num_samples * 4 % UINT32_MOD)

/-- Little-endian 32-bit read of four bytes of `l` at offset `i`
(used to state facts about the header's size fields). -/
def readLe32 (l : List Nat) (i : Nat) : Nat :=
  l.getD i 0 + 256 * l.getD (i + 1) 0 + 65536 * l.getD (i + 2) 0
    + 16777216 * l.getD (i + 3) 0

/-- `is_track_start` from the source: true iff bit 7 (`SUBCODE_P`) is set in
every byte of the subchannel region `buf[DATA_SIZE .. BLOCK_SIZE)`. -/
def is_track_start (buf : List Nat) : Bool :=
  ((buf.drop DATA_SIZE).take SUBCODE_SIZE).all fun b => b.testBit 7

/-- One entry of the modelled file-descriptor table: the file name it was
opened under, the current file position, and whether it is still open. -/
structure FdEntry where
  name : String
  pos : Nat
  isOpen : Bool
deriving DecidableEq, Repr

/-- One stderr line: either the per-track diagnostic printed by
`close_track`, or the error report printed by `start_track` when `open`
fails. -/
inductive LogLine where
  | diag (name : String) (duration startOff endOff : Nat) : LogLine
  | openErr (name : String) : LogLine
deriving DecidableEq, Repr

/-- Whether a stderr line is a `close_track` diagnostic. -/
def LogLine.isDiag : LogLine → Bool
  | .diag _ _ _ _ => true
  | .openErr _ => false

/-- The process environment: files on disk (name and contents, in creation
order after any pre-existing files), the file-descriptor table, and the
stderr lines emitted so far. -/
structure Sys where
  disk : List (String × List Nat)
  fds : List FdEntry
  log : List LogLine
deriving DecidableEq, Repr

/-- Does a file of this name exist on disk? -/
def hasFile : List (String × List Nat) → String → Bool
  | [], _ => false
  | p :: t, n => p.1 = n || hasFile t n

/-- Contents of the (first) file of this name, if it exists. -/
def getFile : List (String × List Nat) → String → Option (List Nat)
  | [], _ => none
  | p :: t, n => if p.1 = n then some p.2 else getFile t n

/-- POSIX `write` semantics on one file: overwrite `data` at position `pos`,
zero-filling a gap if the position is past the end. -/
def fileWrite (c : List Nat) (pos : Nat) (data : List Nat) : List Nat :=
  c.take pos ++ List.replicate (pos - c.length) 0 ++ data ++ c.drop (pos + data.length)

/-- Apply `fileWrite` to every disk entry of the given name. -/
def fsWrite (disk : List (String × List Nat)) (n : String) (pos : Nat)
    (data : List Nat) : List (String × List Nat) :=
  disk.map fun p => if p.1 = n then (p.1, fileWrite p.2 pos data) else p

/-- `write(fd, data, data.length)`: no-op on an invalid or closed descriptor,
otherwise writes at the descriptor's position and advances it. -/
def sysWrite (sys : Sys) (fd : Int) (data : List Nat) : Sys :=
  if fd < 0 then sys
  else
    match sys.fds.get? fd.toNat with
    | none => sys
    | some e =>
      if e.isOpen then
        { sys with
          disk := fsWrite sys.disk e.name e.pos data
          fds := sys.fds.set fd.toNat ⟨e.name, e.pos + data.length, true⟩ }
      else sys

/-- `lseek(fd, SEEK_SET, 0)` from the source: since `SEEK_SET = 0`, the
swapped arguments still seek to absolute position 0. -/
def sysSeek0 (sys : Sys) (fd : Int) : Sys :=
  if fd < 0 then sys
  else
    match sys.fds.get? fd.toNat with
    | none => sys
    | some e =>
      if e.isOpen then { sys with fds := sys.fds.set fd.toNat ⟨e.name, 0, true⟩ }
      else sys

/-- `open(n, O_CREAT | O_EXCL | O_WRONLY, 0644)`: fails (returns `-1`) iff the
name already exists, otherwise creates an empty file and returns a fresh
descriptor. -/
def sysOpenExcl (sys : Sys) (n : String) : Sys × Int :=
  if hasFile sys.disk n then (sys, -1)
  else
    ({ sys with
        disk := sys.disk ++ [(n, [])]
        fds := sys.fds ++ [⟨n, 0, true⟩] },
      Int.ofNat sys.fds.length)

/-- `close(fd)`: marks the descriptor closed. -/
def sysClose (sys : Sys) (fd : Int) : Sys :=
  if fd < 0 then sys
  else
    match sys.fds.get? fd.toNat with
    | none => sys
    | some e => { sys with fds := sys.fds.set fd.toNat ⟨e.name, e.pos, false⟩ }

/-- `write_wav_header` from the source: seek to offset 0 and write the
44-byte header for `num_samples` samples. -/
def write_wav_header (sys : Sys) (fd : Int) (num_samples : Nat) : Sys :=
  sysWrite (sysSeek0 sys fd) fd (wavHeader num_samples)

/-- The `duration_s` computation of `close_track`, translated with C
`unsigned long long` semantics: the 64-bit difference `end - start`, the
64-bit product with `DATA_SIZE`, then exact divisions by `BLOCK_SIZE` and by
`sample_rate * (bits_per_sample / 8) * num_channels`. -/
def durC (start_off end_off : Nat) : Nat :=
  ((end_off + UINT64_MOD - start_off) % UINT64_MOD) * DATA_SIZE % UINT64_MOD
    / BLOCK_SIZE / (44100 * (16 / 8) * 2)

/-- Little-endian decimal digits of `n` (empty for `n = 0`); the first
argument is structural fuel, always instantiated with `n` itself. -/
def decDigitsAux : Nat → Nat → List Nat
  | 0, _ => []
  | f + 1, n => if n = 0 then [] else n % 10 :: decDigitsAux f (n / 10)

/-- Little-endian decimal digits of `n` (empty for `n = 0`). -/
def decDigits (n : Nat) : List Nat := decDigitsAux n n

/-- The ASCII character of one decimal digit. -/
def digitChar (d : Nat) : Char := Char.ofNat (48 + d)

/-- Decimal rendering of a natural number, as `printf "%u"` produces it. -/
def decStr (n : Nat) : String :=
  if n = 0 then "0" else ⟨((decDigits n).reverse.map digitChar)⟩

/-- Decimal rendering zero-padded to width at least 2, as `printf "%02u"`
produces it. -/
def pad2 (n : Nat) : String := if n < 10 then "0" ++ decStr n else decStr n

/-- The output file name `snprintf(..., "track_%02u.wav", n)` builds. -/
def trackName (n : Nat) : String := "track_" ++ pad2 n ++ ".wav"

/-- `struct State` from the source, plus the implicit stack buffer semantics:
`buf` is the 2448-byte read buffer (a short read overwrites only its
prefix). -/
structure State where
  buf : List Nat
  output_file_name : String
  start_offset : Nat
  end_offset : Nat
  offset : Nat
  track_fd : Int
  track_number : Nat
  num_samples : Nat
deriving DecidableEq, Repr

/-- `start_track` from the source: reset the sample count, remember the
starting offset, build the file name from the track number, open it
exclusively (logging an error and returning `false` on failure), and on
success write the placeholder header. -/
def start_track (sys : Sys) (s : State) : Sys × State × Bool :=
  let s1 : State :=
    { s with
      num_samples := 0
      start_offset := s.offset
      output_file_name := trackName s.track_number }
  let r := sysOpenExcl sys s1.output_file_name
  let s2 : State := { s1 with track_fd := r.2 }
  if r.2 < 0 then
    ({ r.1 with log := r.1.log ++ [LogLine.openErr s1.output_file_name] }, s2, false)
  else
    (write_wav_header r.1 r.2 0, s2, true)

/-- `close_track` from the source: a no-op when no track file is open;
otherwise record the end offset, print the diagnostic line (duration in
truncated seconds, computed with C `unsigned long long` arithmetic),
rewrite the header with the final sample count and close the descriptor.
Note that `state->track_fd` is not reset. -/
def close_track (sys : Sys) (s : State) : Sys × State :=
  if s.track_fd = -1 then (sys, s)
  else
    let s1 : State := { s with end_offset := s.offset }
    let duration_s : Nat := durC s1.start_offset s1.end_offset
    let sys1 : Sys :=
      { sys with
        log := sys.log
          ++ [LogLine.diag s1.output_file_name duration_s s1.start_offset s1.end_offset] }
    let sys2 := write_wav_header sys1 s1.track_fd s1.num_samples
    (sysClose sys2 s1.track_fd, s1)

/-- `update_track` from the source: if a track file is open, append the
payload region of the buffer and add `DATA_SIZE / 4 = 588` to the sample
count (C `unsigned` arithmetic). -/
def update_track (sys : Sys) (s : State) : Sys × State :=
  if s.track_fd = -1 then (sys, s)
  else
    (sysWrite sys s.track_fd (s.buf.take DATA_SIZE),
      { s with
        num_samples := (s.num_samples + DATA_SIZE / ((16 / 8) * 2)) % UINT32_MOD })

/-- `read(0, &state.buf, BLOCK_SIZE)` delivering `chunk`: the delivered bytes
overwrite the buffer's prefix, the rest of the buffer keeps its previous
contents. -/
def readIntoBuf (buf chunk : List Nat) : List Nat := chunk ++ buf.drop chunk.length

/-- One iteration of `main`'s `while (1)` loop, given the chunk the `read`
call delivers.  Returns the new environment and state, and `false` iff the
loop `break`s (end-of-file, i.e. an empty chunk, or a failed `start_track`). -/
def step (sys : Sys) (s : State) (chunk : List Nat) : Sys × State × Bool :=
  let s1 : State := { s with buf := readIntoBuf s.buf chunk }
  if chunk.length = 0 then (sys, s1, false)
  else
    if is_track_start s1.buf then
      let s2 : State := { s1 with track_number := (s1.track_number + 1) % UINT32_MOD }
      let p := close_track sys s2
      let q := start_track p.1 p.2
      if q.2.2 then
        let u := update_track q.1 q.2.1
        (u.1, { u.2 with offset := (u.2.offset + BLOCK_SIZE) % UINT64_MOD }, true)
      else (q.1, q.2.1, false)
    else
      let u := update_track sys s1
      (u.1, { u.2 with offset := (u.2.offset + BLOCK_SIZE) % UINT64_MOD }, true)

/-- `main`'s loop over the list of chunks stdin delivers, followed by the
final `close_track` once the loop exits (an exhausted chunk list stands for
`read` returning 0). -/
def runLoop : Sys → State → List (List Nat) → Sys × State
  | sys, s, [] => close_track sys s
  | sys, s, c :: rest =>
    let r := step sys s c
    if r.2.2 then runLoop r.1 r.2.1 rest else close_track r.1 r.2.1

/-- `main`'s `memset(&state, 0, ...)` followed by `state.track_fd = INVALID_FD`. -/
def initState : State :=
  { buf := List.replicate BLOCK_SIZE 0
    output_file_name := ""
    start_offset := 0
    end_offset := 0
    offset := 0
    track_fd := -1
    track_number := 0
    num_samples := 0 }

/-- Result of a whole process run: final environment, final `struct State`,
and the process exit code. -/
structure RunResult where
  sys : Sys
  finalState : State
  exitCode : Nat
deriving DecidableEq, Repr

/-- A whole run of `main` against a pre-existing disk `disk0` and the given
stdin chunks; `main` ends with `return 0`, so the exit code is always 0. -/
def mainRun (disk0 : List (String × List Nat)) (input : List (List Nat)) : RunResult :=
  let r := runLoop ⟨disk0, [], []⟩ initState input
  ⟨r.1, r.2, 0⟩

/-- Modelled from the spec (refinement comparator for claim C1): the loop as
the spec describes it, where a read delivering fewer bytes than one full
sector — not only zero bytes — is treated as end-of-stream and the loop
proceeds directly to finalization without classifying or writing that
partial sector. -/
def runLoopSpecShortRead : Sys → State → List (List Nat) → Sys × State
  | sys, s, [] => close_track sys s
  | sys, s, c :: rest =>
    if c.length < BLOCK_SIZE then close_track sys s
    else
      let r := step sys s c
      if r.2.2 then runLoopSpecShortRead r.1 r.2.1 rest else close_track r.1 r.2.1

/-- Modelled from the spec (refinement comparator for claim C1): a whole run
with the spec's short-read-is-end-of-stream rule. -/
def mainRunSpecShortRead (disk0 : List (String × List Nat))
    (input : List (List Nat)) : RunResult :=
  let r := runLoopSpecShortRead ⟨disk0, [], []⟩ initState input
  ⟨r.1, r.2, 0⟩

/-- A concrete boundary sector: zero payload, every subchannel byte `0x80`. -/
def secB : List Nat := List.replicate DATA_SIZE 0 ++ List.replicate SUBCODE_SIZE 128

/-- A concrete non-boundary sector: all bytes zero. -/
def secN : List Nat := List.replicate BLOCK_SIZE 0

/-- Concatenated payload regions of a list of sectors. -/
def payloads (l : List (List Nat)) : List Nat := (l.map fun c => c.take DATA_SIZE).flatten

/-- Number of boundary-qualifying sectors in a chunk list. -/
def countB (input : List (List Nat)) : Nat := input.countP fun c => is_track_start c

/-- Value of a little-endian decimal digit list. -/
def valDigits (l : List Nat) : Nat := l.foldr (fun d r => d + 10 * r) 0

/-- No open descriptor of the environment refers to file name `n`. -/
def avoidsOpen (sys : Sys) (n : String) : Prop :=
  ∀ e ∈ sys.fds, e.isOpen = true → e.name ≠ n

/-- The property claim C6 (as amended) asserts of one diagnostic line of a run
over `total` full sectors: the printed offsets are the byte offsets
`BLOCK_SIZE * k` and `BLOCK_SIZE * m` of the track's first and one-past-last
sector, and the printed duration is the truncated whole-second duration of
its `m - k` sectors of payload. -/
def DiagOk (total : Nat) (du st en : Nat) : Prop :=
  ∃ k m, k ≤ m ∧ m ≤ total ∧ st = BLOCK_SIZE * k ∧ en = BLOCK_SIZE * m ∧
    du = (m - k) * DATA_SIZE / 176400

/-! ### Basic facts about the header bytes -/

theorem wavHeader_length (ns : Nat) : (wavHeader ns).length = 44 := by
  simp [wavHeader, le16, le32]

theorem le32_length (v : Nat) : (le32 v).length = 4 := rfl

theorem readLe32_le32 (v : Nat) (hv : v < UINT32_MOD) : readLe32 (le32 v) 0 = v := by
  simp only [readLe32, le32, List.getD_cons_zero, List.getD_cons_succ]
  rw [UINT32_MOD] at hv
  omega

theorem wavHeader_split (ns : Nat) :
    wavHeader ns
      = ([82, 73, 70, 70] ++ le32 ((36 + ns * 4 % UINT32_MOD) % UINT32_MOD)
          ++ [87, 65, 86, 69] ++ [102, 109, 116, 32] ++ le32 16 ++ le16 1 ++ le16 2
          ++ le32 44100 ++ le32 176400 ++ le16 4 ++ le16 16 ++ [100, 97, 116, 97])
        ++ le32 (ns * 4 % UINT32_MOD) := by
  simp [wavHeader, le16, le32]

theorem readLe32_append_of_length (P X : List Nat) (h : P.length = 40) :
    readLe32 (P ++ X) 40 = readLe32 X 0 := by
  simp only [readLe32]
  rw [List.getD_append_right _ _ _ _ (by omega), List.getD_append_right _ _ _ _ (by omega),
    List.getD_append_right _ _ _ _ (by omega), List.getD_append_right _ _ _ _ (by omega)]
  simp [h]

theorem readLe32_wavHeader_40 (ns : Nat) :
    readLe32 (wavHeader ns) 40 = ns * 4 % UINT32_MOD := by
  rw [wavHeader_split, readLe32_append_of_length _ _ (by simp [le16, le32]),
    readLe32_le32 _ (Nat.mod_lt _ (by rw [UINT32_MOD]; omega))]

theorem readLe32_wavHeader_4 (ns : Nat) :
    readLe32 (wavHeader ns) 4 = (36 + ns * 4 % UINT32_MOD) % UINT32_MOD := by
  have h : readLe32 (wavHeader ns) 4
      = readLe32 (le32 ((36 + ns * 4 % UINT32_MOD) % UINT32_MOD)) 0 := by
    simp [readLe32, wavHeader, le16, le32, List.getD_cons_succ, List.getD_cons_zero]
  rw [h, readLe32_le32 _ (Nat.mod_lt _ (by rw [UINT32_MOD]; omega))]

theorem readLe32_prefix_40 (l X : List Nat) (h : l.length = 44) :
    readLe32 (l ++ X) 40 = readLe32 l 40 := by
  simp only [readLe32]
  rw [List.getD_append _ _ _ _ (by omega), List.getD_append _ _ _ _ (by omega),
    List.getD_append _ _ _ _ (by omega), List.getD_append _ _ _ _ (by omega)]

/-! ### Facts about the read buffer -/

theorem readIntoBuf_nil (buf : List Nat) : readIntoBuf buf [] = buf := by
  simp [readIntoBuf]

theorem readIntoBuf_full (buf c : List Nat) (hb : buf.length ≤ c.length) :
    readIntoBuf buf c = c := by
  simp [readIntoBuf, List.drop_eq_nil_of_le hb]

theorem readIntoBuf_length (buf c : List Nat) (h : c.length ≤ buf.length) :
    (readIntoBuf buf c).length = buf.length := by
  simp [readIntoBuf]
  omega

/-! ### Facts about the modelled disk -/

theorem hasFile_iff (d : List (String × List Nat)) (n : String) :
    hasFile d n = true ↔ n ∈ d.map Prod.fst := by
  induction d with
  | nil => simp [hasFile]
  | cons a t ih =>
    simp only [hasFile, List.map_cons, List.mem_cons, Bool.or_eq_true,
      decide_eq_true_eq, ih]
    exact or_congr eq_comm Iff.rfl

theorem hasFile_append (D E : List (String × List Nat)) (n : String) :
    hasFile (D ++ E) n = (hasFile D n || hasFile E n) := by
  induction D with
  | nil => simp [hasFile]
  | cons a t ih => simp [hasFile, ih, Bool.or_assoc]

theorem fsWrite_map_fst (d : List (String × List Nat)) (n : String) (p : Nat)
    (data : List Nat) : (fsWrite d n p data).map Prod.fst = d.map Prod.fst := by
  induction d with
  | nil => rfl
  | cons a t ih =>
    simp only [fsWrite, List.map_cons] at ih ⊢
    by_cases h : a.1 = n <;> simp [h, ih]

theorem hasFile_fsWrite (d : List (String × List Nat)) (n m : String) (p : Nat)
    (data : List Nat) : hasFile (fsWrite d n p data) m = hasFile d m := by
  induction d with
  | nil => rfl
  | cons a t ih =>
    simp only [fsWrite, List.map_cons] at ih ⊢
    by_cases h : a.1 = n <;> simp [hasFile, h, ih]

theorem fsWrite_of_not_has (d : List (String × List Nat)) (n : String) (p : Nat)
    (data : List Nat) (h : hasFile d n = false) : fsWrite d n p data = d := by
  induction d with
  | nil => rfl
  | cons a t ih =>
    simp only [hasFile, Bool.or_eq_false_iff, decide_eq_false_iff_not] at h
    simp only [fsWrite, List.map_cons, if_neg h.1]
    have := ih h.2
    simpa [fsWrite] using this

theorem fsWrite_append_single (D : List (String × List Nat)) (n : String)
    (c : List Nat) (p : Nat) (data : List Nat) (h : hasFile D n = false) :
    fsWrite (D ++ [(n, c)]) n p data = D ++ [(n, fileWrite c p data)] := by
  simp only [fsWrite, List.map_append]
  rw [show (List.map (fun q => if q.1 = n then (q.1, fileWrite q.2 p data) else q) D)
      = fsWrite D n p data from rfl, fsWrite_of_not_has _ _ _ _ h]
  simp

theorem getFile_fsWrite_ne (d : List (String × List Nat)) (n m : String) (p : Nat)
    (data : List Nat) (h : m ≠ n) : getFile (fsWrite d n p data) m = getFile d m := by
  induction d with
  | nil => rfl
  | cons a t ih =>
    have h2 : ¬n = m := fun hc => h hc.symm
    simp only [fsWrite, List.map_cons] at ih ⊢
    by_cases han : a.1 = n
    · have ham : ¬a.1 = m := by rw [han]; exact fun hc => h hc.symm
      simp [getFile, han, ham, h, h2, ih]
    · by_cases ham : a.1 = m <;> simp [getFile, han, ham, h, h2, ih]

theorem getFile_fsWrite_self (d : List (String × List Nat)) (n : String) (p : Nat)
    (data : List Nat) :
    getFile (fsWrite d n p data) n = (getFile d n).map fun c => fileWrite c p data := by
  induction d with
  | nil => rfl
  | cons a t ih =>
    simp only [fsWrite, List.map_cons] at ih ⊢
    by_cases han : a.1 = n <;> simp [getFile, han, ih]

theorem getFile_append_left (D E : List (String × List Nat)) (m : String)
    (h : hasFile D m = true) : getFile (D ++ E) m = getFile D m := by
  induction D with
  | nil => simp [hasFile] at h
  | cons a t ih =>
    by_cases ham : a.1 = m
    · simp [getFile, ham]
    · simp only [hasFile, Bool.or_eq_true, decide_eq_true_eq] at h
      rcases h with h | h
      · exact absurd h ham
      · simp [getFile, ham, ih h]

theorem getFile_append_right (D E : List (String × List Nat)) (m : String)
    (h : hasFile D m = false) : getFile (D ++ E) m = getFile E m := by
  induction D with
  | nil => rfl
  | cons a t ih =>
    simp only [hasFile, Bool.or_eq_false_iff, decide_eq_false_iff_not] at h
    simp [getFile, h.1, ih h.2]

theorem getFile_single (n : String) (c : List Nat) :
    getFile [(n, c)] n = some c := by
  simp [getFile]

/-! ### Facts about `fileWrite` -/

theorem fileWrite_at_end (c data : List Nat) : fileWrite c c.length data = c ++ data := by
  simp [fileWrite, List.drop_eq_nil_of_le (Nat.le_add_right _ _)]

theorem fileWrite_at_zero (c data : List Nat) :
    fileWrite c 0 data = data ++ c.drop data.length := by
  simp [fileWrite]

theorem fileWrite_header (c data : List Nat) (h : data.length = 44) :
    fileWrite c 0 data = data ++ c.drop 44 := by
  rw [fileWrite_at_zero, h]

/-! ### Facts about the concrete sectors -/

theorem secB_length : secB.length = BLOCK_SIZE := by
  rw [secB, BLOCK_SIZE, List.length_append, List.length_replicate, List.length_replicate]

theorem secN_length : secN.length = BLOCK_SIZE := by
  rw [secN, List.length_replicate]

theorem secB_take : secB.take DATA_SIZE = List.replicate DATA_SIZE 0 := by
  rw [secB, List.take_append_of_le_length (by rw [List.length_replicate])]
  rw [List.take_replicate]
  simp

theorem secB_boundary : is_track_start secB = true := by
  rw [is_track_start, secB]
  rw [List.drop_append_of_le_length (by rw [List.length_replicate])]
  rw [List.drop_replicate, Nat.sub_self, List.replicate_zero, List.nil_append]
  rw [List.take_replicate]
  rw [List.all_eq_true]
  intro b hb
  have hb2 := List.eq_of_mem_replicate hb
  subst hb2
  decide

theorem secN_not_boundary : is_track_start secN = false := by
  rw [is_track_start, secN]
  rw [List.drop_replicate, List.take_replicate]
  rw [List.all_eq_false]
  refine ⟨0, ?_, by decide⟩
  apply List.mem_replicate.mpr
  refine ⟨?_, rfl⟩
  rw [BLOCK_SIZE, DATA_SIZE, SUBCODE_SIZE]
  decide

theorem secB_drop_one_boundary : is_track_start ([7] ++ secB.drop 1) = true := by
  have h1 : ([7] ++ secB.drop 1).drop DATA_SIZE = secB.drop DATA_SIZE := by
    rw [List.drop_append_eq_append_drop]
    rw [show (List.drop DATA_SIZE [(7 : Nat)]) = [] from
      List.drop_eq_nil_of_le (by simp [DATA_SIZE])]
    rw [List.nil_append, List.drop_drop]
    congr 1
  rw [is_track_start, h1, ← is_track_start]
  exact secB_boundary

/-! ### The decimal rendering and injectivity of `trackName` -/

theorem valDigits_decDigitsAux (f : Nat) :
    ∀ n, n ≤ f → valDigits (decDigitsAux f n) = n := by
  induction f with
  | zero =>
    intro n hn
    interval_cases n
    rfl
  | succ f ih =>
    intro n hn
    by_cases h0 : n = 0
    · subst h0
      simp [decDigitsAux, valDigits]
    · rw [decDigitsAux, if_neg h0]
      have hdiv : n / 10 ≤ f := by
        have hlt : n / 10 < n := Nat.div_lt_self (Nat.pos_of_ne_zero h0) (by decide)
        omega
      simp only [valDigits, List.foldr_cons] at ih ⊢
      rw [ih _ hdiv]
      omega

theorem valDigits_decDigits (n : Nat) : valDigits (decDigits n) = n :=
  valDigits_decDigitsAux n n (Nat.le_refl n)

theorem decDigits_inj (m n : Nat) (h : decDigits m = decDigits n) : m = n := by
  have hm := valDigits_decDigits m
  have hn := valDigits_decDigits n
  rw [h] at hm
  omega

theorem decDigitsAux_lt_base (f : Nat) :
    ∀ n d, d ∈ decDigitsAux f n → d < 10 := by
  induction f with
  | zero =>
    intro n d hd
    simp [decDigitsAux] at hd
  | succ f ih =>
    intro n d hd
    rw [decDigitsAux] at hd
    by_cases h0 : n = 0
    · simp [h0] at hd
    · rw [if_neg h0] at hd
      rcases List.mem_cons.mp hd with h | h
      · subst h
        exact Nat.mod_lt _ (by omega)
      · exact ih _ _ h

theorem decDigits_lt_base (n d : Nat) (hd : d ∈ decDigits n) : d < 10 :=
  decDigitsAux_lt_base n n d hd

theorem digitChar_inj : ∀ a, a < 10 → ∀ b, b < 10 → digitChar a = digitChar b → a = b := by
  decide

theorem map_digitChar_inj :
    ∀ l1 l2 : List Nat, (∀ d ∈ l1, d < 10) → (∀ d ∈ l2, d < 10) →
      l1.map digitChar = l2.map digitChar → l1 = l2 := by
  intro l1
  induction l1 with
  | nil =>
    intro l2 _ _ h
    cases l2 with
    | nil => rfl
    | cons b t => simp at h
  | cons a t ih =>
    intro l2 h1 h2 h
    cases l2 with
    | nil => simp at h
    | cons b u =>
      simp only [List.map_cons, List.cons.injEq] at h
      have ha : a = b :=
        digitChar_inj a (h1 a (List.mem_cons_self a t)) b
          (h2 b (List.mem_cons_self b u)) h.1
      have ht : t = u :=
        ih u (fun d hd => h1 d (List.mem_cons_of_mem _ hd))
          (fun d hd => h2 d (List.mem_cons_of_mem _ hd)) h.2
      rw [ha, ht]

theorem decStr_inj (m n : Nat) (h : decStr m = decStr n) : m = n := by
  have hdata : (decStr m).data = (decStr n).data := by rw [h]
  by_cases hm : m = 0 <;> by_cases hn : n = 0
  · omega
  · exfalso
    rw [decStr, if_pos hm, decStr, if_neg hn] at hdata
    have : List.map digitChar (decDigits n) = ['0'] := by
      have := hdata.symm
      apply List.reverse_injective
      simpa using this
    have hd : decDigits n = [0] := by
      apply map_digitChar_inj _ [0] (fun d hd => decDigits_lt_base n d hd)
        (by intro d hd; simp at hd; omega)
      simpa [digitChar] using this
    have := valDigits_decDigits n
    rw [hd] at this
    simp [valDigits] at this
    omega
  · exfalso
    rw [decStr, if_neg hm, decStr, if_pos hn] at hdata
    have : List.map digitChar (decDigits m) = ['0'] := by
      apply List.reverse_injective
      simpa using hdata
    have hd : decDigits m = [0] := by
      apply map_digitChar_inj _ [0] (fun d hd => decDigits_lt_base m d hd)
        (by intro d hd; simp at hd; omega)
      simpa [digitChar] using this
    have := valDigits_decDigits m
    rw [hd] at this
    simp [valDigits] at this
    omega
  · rw [decStr, if_neg hm, decStr, if_neg hn] at hdata
    simp only at hdata
    have hrev : (decDigits m).reverse.map digitChar = (decDigits n).reverse.map digitChar := by
      simpa using hdata
    have : (decDigits m).reverse = (decDigits n).reverse := by
      apply map_digitChar_inj
      · intro d hd
        exact decDigits_lt_base m d (List.mem_reverse.mp hd)
      · intro d hd
        exact decDigits_lt_base n d (List.mem_reverse.mp hd)
      · exact hrev
    exact decDigits_inj m n (List.reverse_injective this)

theorem decDigitsAux_zero (f : Nat) : decDigitsAux f 0 = [] := by
  cases f <;> simp [decDigitsAux]

theorem decDigits_of_lt10 (m : Nat) (h1 : m ≠ 0) (h2 : m < 10) : decDigits m = [m] := by
  cases m with
  | zero => exact absurd rfl h1
  | succ k =>
    rw [decDigits, decDigitsAux, if_neg (Nat.succ_ne_zero k)]
    rw [Nat.mod_eq_of_lt h2, Nat.div_eq_of_lt h2, decDigitsAux_zero]

theorem decStr_data_of_lt10 (m : Nat) (h : m < 10) : (decStr m).data = [digitChar m] := by
  by_cases h0 : m = 0
  · subst h0
    decide
  · rw [decStr, if_neg h0, decDigits_of_lt10 m h0 h]
    simp

theorem pad2_data_of_lt10 (m : Nat) (h : m < 10) :
    (pad2 m).data = List.map digitChar [0, m] := by
  rw [pad2, if_pos h, String.data_append, decStr_data_of_lt10 m h]
  rfl

theorem pad2_data_of_ge10 (n : Nat) (h : 10 ≤ n) :
    (pad2 n).data = List.map digitChar (decDigits n).reverse := by
  rw [pad2, if_neg (by omega), decStr, if_neg (by omega)]

theorem pad2_ne_cross (m n : Nat) (hm : m < 10) (hn : 10 ≤ n) :
    (pad2 m).data ≠ (pad2 n).data := by
  intro hdata
  rw [pad2_data_of_lt10 m hm, pad2_data_of_ge10 n hn] at hdata
  have hrev : [0, m] = (decDigits n).reverse := by
    apply map_digitChar_inj
    · intro d hd
      simp at hd
      omega
    · intro d hd
      exact decDigits_lt_base n d (List.mem_reverse.mp hd)
    · exact hdata
  have hdig : decDigits n = [m, 0] := by
    have := congrArg List.reverse hrev
    rw [List.reverse_reverse] at this
    exact this.symm
  have hv := valDigits_decDigits n
  rw [hdig] at hv
  simp [valDigits] at hv
  omega

theorem pad2_inj (m n : Nat) (h : pad2 m = pad2 n) : m = n := by
  have hdata : (pad2 m).data = (pad2 n).data := by rw [h]
  by_cases hm : m < 10 <;> by_cases hn : n < 10
  · rw [pad2_data_of_lt10 m hm, pad2_data_of_lt10 n hn] at hdata
    have := map_digitChar_inj [0, m] [0, n]
      (by intro d hd; simp at hd; omega) (by intro d hd; simp at hd; omega) hdata
    simpa using this
  · exact absurd hdata (pad2_ne_cross m n hm (by omega))
  · exact absurd hdata.symm (pad2_ne_cross n m hn (by omega))
  · rw [pad2, if_neg hm, pad2, if_neg hn] at hdata
    exact decStr_inj m n (by apply String.ext; simpa [pad2, hm, hn] using hdata)

theorem trackName_inj (m n : Nat) (h : trackName m = trackName n) : m = n := by
  have hdata : (trackName m).data = (trackName n).data := by rw [h]
  rw [trackName, trackName, String.data_append, String.data_append,
    String.data_append, String.data_append] at hdata
  have h1 := List.append_cancel_right hdata
  have h2 := List.append_cancel_left h1
  exact pad2_inj m n (String.ext h2)

/-! ### Small facts about descriptor numbers -/

theorem ofNat_not_lt_zero (f : Nat) : ¬(Int.ofNat f < 0) :=
  not_lt.mpr (Int.natCast_nonneg f)

theorem ofNat_ne_neg_one (f : Nat) : Int.ofNat f ≠ -1 := by
  intro h
  have h2 : (0 : Int) ≤ Int.ofNat f := Int.natCast_nonneg f
  rw [h] at h2
  norm_num at h2

theorem toNat_ofNat_eq (f : Nat) : (Int.ofNat f).toNat = f := rfl

theorem get?_some_lt {α : Type} (l : List α) (f : Nat) (a : α)
    (h : l.get? f = some a) : f < l.length := by
  by_contra hge
  rw [List.get?_eq_getElem?, List.getElem?_eq_none (by omega)] at h
  exact Option.noConfusion h

theorem set_concat_length {α : Type} (l : List α) (a b : α) :
    (l ++ [a]).set l.length b = l ++ [b] := by
  induction l with
  | nil => rfl
  | cons x t ih => simp [List.set, ih]

theorem get?_concat_length' {α : Type} (l : List α) (a : α) :
    (l ++ [a]).get? l.length = some a := by
  rw [List.get?_eq_getElem?, List.getElem?_concat_length]

/-! ### Characterizations of the modelled system calls -/

theorem sysWrite_open (sys : Sys) (f : Nat) (data : List Nat) (n : String) (p : Nat)
    (he : sys.fds.get? f = some ⟨n, p, true⟩) :
    sysWrite sys (Int.ofNat f) data =
      { sys with
        disk := fsWrite sys.disk n p data
        fds := sys.fds.set f ⟨n, p + data.length, true⟩ } := by
  rw [sysWrite, if_neg (ofNat_not_lt_zero f), toNat_ofNat_eq, he]
  rfl

theorem sysSeek0_open (sys : Sys) (f : Nat) (n : String) (p : Nat)
    (he : sys.fds.get? f = some ⟨n, p, true⟩) :
    sysSeek0 sys (Int.ofNat f) =
      { sys with fds := sys.fds.set f ⟨n, 0, true⟩ } := by
  rw [sysSeek0, if_neg (ofNat_not_lt_zero f), toNat_ofNat_eq, he]
  rfl

theorem sysClose_open (sys : Sys) (f : Nat) (n : String) (p : Nat)
    (he : sys.fds.get? f = some ⟨n, p, true⟩) :
    sysClose sys (Int.ofNat f) =
      { sys with fds := sys.fds.set f ⟨n, p, false⟩ } := by
  rw [sysClose, if_neg (ofNat_not_lt_zero f), toNat_ofNat_eq, he]

theorem write_wav_header_open (sys : Sys) (f : Nat) (ns : Nat) (n : String) (p : Nat)
    (he : sys.fds.get? f = some ⟨n, p, true⟩) :
    write_wav_header sys (Int.ofNat f) ns =
      { sys with
        disk := fsWrite sys.disk n 0 (wavHeader ns)
        fds := sys.fds.set f ⟨n, 44, true⟩ } := by
  have hf : f < sys.fds.length := get?_some_lt _ _ _ he
  rw [write_wav_header, sysSeek0_open sys f n p he]
  rw [sysWrite_open _ f _ n 0 (by
    simp only [List.get?_eq_getElem?]
    rw [List.getElem?_set_self (by simpa using hf)])]
  simp [List.set_set, wavHeader_length]

/-! ### Characterizations of `close_track`, `start_track`, `update_track` -/

theorem close_track_invalid (sys : Sys) (s : State) (h : s.track_fd = -1) :
    close_track sys s = (sys, s) := by
  rw [close_track, if_pos h]

theorem close_track_open (sys : Sys) (s : State) (f : Nat) (n : String) (p : Nat)
    (hfd : s.track_fd = Int.ofNat f) (he : sys.fds.get? f = some ⟨n, p, true⟩) :
    close_track sys s =
      (⟨fsWrite sys.disk n 0 (wavHeader s.num_samples),
        sys.fds.set f ⟨n, 44, false⟩,
        sys.log ++ [LogLine.diag s.output_file_name (durC s.start_offset s.offset)
          s.start_offset s.offset]⟩,
       { s with end_offset := s.offset }) := by
  have hf : f < sys.fds.length := get?_some_lt _ _ _ he
  rw [close_track, if_neg (by rw [hfd]; exact ofNat_ne_neg_one f)]
  simp only
  rw [hfd]
  rw [show ({ sys with
      log := sys.log ++ [LogLine.diag s.output_file_name (durC s.start_offset s.offset)
        s.start_offset s.offset] } : Sys).fds = sys.fds from rfl] at *
  rw [write_wav_header_open _ f _ n p (by exact he)]
  rw [sysClose_open _ f n 44 (by
    simp only [List.get?_eq_getElem?]
    rw [List.getElem?_set_self (by simpa using hf)])]
  simp [List.set_set]

theorem update_track_invalid (sys : Sys) (s : State) (h : s.track_fd = -1) :
    update_track sys s = (sys, s) := by
  rw [update_track, if_pos h]

theorem update_track_open (sys : Sys) (s : State) (f : Nat) (n : String) (p : Nat)
    (hfd : s.track_fd = Int.ofNat f) (he : sys.fds.get? f = some ⟨n, p, true⟩) :
    update_track sys s =
      ({ sys with
          disk := fsWrite sys.disk n p (s.buf.take DATA_SIZE)
          fds := sys.fds.set f ⟨n, p + (s.buf.take DATA_SIZE).length, true⟩ },
        { s with num_samples := (s.num_samples + 588) % UINT32_MOD }) := by
  rw [update_track, if_neg (by rw [hfd]; exact ofNat_ne_neg_one f)]
  rw [hfd, sysWrite_open _ f _ n p he]
  norm_num [DATA_SIZE]

theorem start_track_fail (sys : Sys) (s : State)
    (h : hasFile sys.disk (trackName s.track_number) = true) :
    start_track sys s =
      ({ sys with log := sys.log ++ [LogLine.openErr (trackName s.track_number)] },
       { s with
          num_samples := 0
          start_offset := s.offset
          output_file_name := trackName s.track_number
          track_fd := -1 }, false) := by
  rw [start_track]
  simp only [sysOpenExcl, h, if_pos, if_true]
  norm_num

theorem start_track_success (sys : Sys) (s : State)
    (h : hasFile sys.disk (trackName s.track_number) = false) :
    start_track sys s =
      ({ sys with
          disk := sys.disk ++ [(trackName s.track_number, wavHeader 0)]
          fds := sys.fds ++ [⟨trackName s.track_number, 44, true⟩] },
       { s with
          num_samples := 0
          start_offset := s.offset
          output_file_name := trackName s.track_number
          track_fd := Int.ofNat sys.fds.length }, true) := by
  rw [start_track]
  simp only [sysOpenExcl, h, Bool.false_eq_true, if_false, if_neg (ofNat_not_lt_zero _)]
  rw [write_wav_header_open _ sys.fds.length 0 (trackName s.track_number) 0
    (get?_concat_length' _ _)]
  rw [set_concat_length]
  rw [fsWrite_append_single _ _ _ _ _ h]
  rw [fileWrite_at_zero]
  simp

/-! ### Characterizations of one loop iteration -/

theorem fileWrite_wavHeader (ns : Nat) (data : List Nat) :
    fileWrite (wavHeader ns) 44 data = wavHeader ns ++ data := by
  have h := fileWrite_at_end (wavHeader ns) data
  rwa [wavHeader_length] at h

theorem step_nil (sys : Sys) (s : State) : step sys s [] = (sys, s, false) := rfl

theorem step_nonboundary_closed (sys : Sys) (s : State) (chunk : List Nat)
    (hc : chunk.length ≠ 0) (hfd : s.track_fd = -1)
    (hnb : is_track_start (readIntoBuf s.buf chunk) = false) :
    step sys s chunk =
      (sys, { s with
        buf := readIntoBuf s.buf chunk
        offset := (s.offset + BLOCK_SIZE) % UINT64_MOD }, true) := by
  rw [step]
  simp only [if_neg hc, hnb, Bool.false_eq_true, if_false]
  rw [update_track_invalid sys { s with buf := readIntoBuf s.buf chunk } hfd]

theorem step_nonboundary_open (sys : Sys) (s : State) (chunk : List Nat) (f : Nat)
    (n : String) (p : Nat) (hc : chunk.length ≠ 0) (hfd : s.track_fd = Int.ofNat f)
    (he : sys.fds.get? f = some ⟨n, p, true⟩)
    (hnb : is_track_start (readIntoBuf s.buf chunk) = false) :
    step sys s chunk =
      ({ sys with
          disk := fsWrite sys.disk n p ((readIntoBuf s.buf chunk).take DATA_SIZE)
          fds := sys.fds.set f
            ⟨n, p + ((readIntoBuf s.buf chunk).take DATA_SIZE).length, true⟩ },
        { s with
          buf := readIntoBuf s.buf chunk
          num_samples := (s.num_samples + 588) % UINT32_MOD
          offset := (s.offset + BLOCK_SIZE) % UINT64_MOD }, true) := by
  rw [step]
  simp only [if_neg hc, hnb, Bool.false_eq_true, if_false]
  rw [update_track_open sys { s with buf := readIntoBuf s.buf chunk } f n p hfd he]

theorem mod32_588 : (0 + 588) % UINT32_MOD = 588 := by
  rw [UINT32_MOD]

theorem step_boundary_first (sys : Sys) (s : State) (chunk : List Nat)
    (hc : chunk.length ≠ 0) (hfd : s.track_fd = -1)
    (hbd : is_track_start (readIntoBuf s.buf chunk) = true)
    (hfresh : hasFile sys.disk (trackName ((s.track_number + 1) % UINT32_MOD)) = false) :
    step sys s chunk =
      ({ sys with
          disk := sys.disk ++ [(trackName ((s.track_number + 1) % UINT32_MOD),
            wavHeader 0 ++ (readIntoBuf s.buf chunk).take DATA_SIZE)]
          fds := sys.fds ++ [⟨trackName ((s.track_number + 1) % UINT32_MOD),
            44 + ((readIntoBuf s.buf chunk).take DATA_SIZE).length, true⟩] },
        { s with
          buf := readIntoBuf s.buf chunk
          output_file_name := trackName ((s.track_number + 1) % UINT32_MOD)
          start_offset := s.offset
          track_fd := Int.ofNat sys.fds.length
          track_number := (s.track_number + 1) % UINT32_MOD
          num_samples := 588
          offset := (s.offset + BLOCK_SIZE) % UINT64_MOD }, true) := by
  rw [step]
  simp only [if_neg hc, hbd, if_true]
  rw [close_track_invalid sys
    { s with
      buf := readIntoBuf s.buf chunk
      track_number := (s.track_number + 1) % UINT32_MOD } hfd]
  dsimp only
  rw [start_track_success sys
    { s with
      buf := readIntoBuf s.buf chunk
      track_number := (s.track_number + 1) % UINT32_MOD } hfresh]
  dsimp only
  rw [update_track_open
    { sys with
        disk := sys.disk ++ [(trackName ((s.track_number + 1) % UINT32_MOD), wavHeader 0)]
        fds := sys.fds ++ [⟨trackName ((s.track_number + 1) % UINT32_MOD), 44, true⟩] }
    { s with
      buf := readIntoBuf s.buf chunk
      output_file_name := trackName ((s.track_number + 1) % UINT32_MOD)
      start_offset := s.offset
      track_fd := Int.ofNat sys.fds.length
      track_number := (s.track_number + 1) % UINT32_MOD
      num_samples := 0 }
    sys.fds.length (trackName ((s.track_number + 1) % UINT32_MOD)) 44 rfl
    (get?_concat_length' _ _)]
  dsimp only
  rw [fsWrite_append_single _ _ _ _ _ hfresh, fileWrite_wavHeader, set_concat_length,
    mod32_588]
  exact if_pos rfl

theorem step_boundary_next_success (sys : Sys) (s : State) (chunk : List Nat)
    (f : Nat) (n : String) (p : Nat) (hc : chunk.length ≠ 0)
    (hfd : s.track_fd = Int.ofNat f) (he : sys.fds.get? f = some ⟨n, p, true⟩)
    (hbd : is_track_start (readIntoBuf s.buf chunk) = true)
    (hfresh : hasFile sys.disk (trackName ((s.track_number + 1) % UINT32_MOD)) = false) :
    step sys s chunk =
      (⟨fsWrite sys.disk n 0 (wavHeader s.num_samples)
          ++ [(trackName ((s.track_number + 1) % UINT32_MOD),
            wavHeader 0 ++ (readIntoBuf s.buf chunk).take DATA_SIZE)],
        sys.fds.set f ⟨n, 44, false⟩
          ++ [⟨trackName ((s.track_number + 1) % UINT32_MOD),
            44 + ((readIntoBuf s.buf chunk).take DATA_SIZE).length, true⟩],
        sys.log ++ [LogLine.diag s.output_file_name (durC s.start_offset s.offset)
          s.start_offset s.offset]⟩,
        { s with
          buf := readIntoBuf s.buf chunk
          output_file_name := trackName ((s.track_number + 1) % UINT32_MOD)
          start_offset := s.offset
          end_offset := s.offset
          track_fd := Int.ofNat sys.fds.length
          track_number := (s.track_number + 1) % UINT32_MOD
          num_samples := 588
          offset := (s.offset + BLOCK_SIZE) % UINT64_MOD }, true) := by
  rw [step]
  simp only [if_neg hc, hbd, if_true]
  rw [close_track_open sys
    { s with
      buf := readIntoBuf s.buf chunk
      track_number := (s.track_number + 1) % UINT32_MOD } f n p hfd he]
  dsimp only
  rw [start_track_success
    ⟨fsWrite sys.disk n 0 (wavHeader s.num_samples),
      sys.fds.set f ⟨n, 44, false⟩,
      sys.log ++ [LogLine.diag s.output_file_name (durC s.start_offset s.offset)
        s.start_offset s.offset]⟩
    { s with
      buf := readIntoBuf s.buf chunk
      track_number := (s.track_number + 1) % UINT32_MOD
      end_offset := s.offset }
    (by
      have h1 : (⟨fsWrite sys.disk n 0 (wavHeader s.num_samples),
          sys.fds.set f ⟨n, 44, false⟩,
          sys.log ++ [LogLine.diag s.output_file_name (durC s.start_offset s.offset)
            s.start_offset s.offset]⟩ : Sys).disk
          = fsWrite sys.disk n 0 (wavHeader s.num_samples) := rfl
      rw [h1, hasFile_fsWrite]
      exact hfresh)]
  dsimp only
  rw [update_track_open
    ⟨fsWrite sys.disk n 0 (wavHeader s.num_samples)
        ++ [(trackName ((s.track_number + 1) % UINT32_MOD), wavHeader 0)],
      sys.fds.set f ⟨n, 44, false⟩
        ++ [⟨trackName ((s.track_number + 1) % UINT32_MOD), 44, true⟩],
      sys.log ++ [LogLine.diag s.output_file_name (durC s.start_offset s.offset)
        s.start_offset s.offset]⟩
    { s with
      buf := readIntoBuf s.buf chunk
      output_file_name := trackName ((s.track_number + 1) % UINT32_MOD)
      start_offset := s.offset
      end_offset := s.offset
      track_fd := Int.ofNat (sys.fds.set f ⟨n, 44, false⟩).length
      track_number := (s.track_number + 1) % UINT32_MOD
      num_samples := 0 }
    (sys.fds.set f ⟨n, 44, false⟩).length
    (trackName ((s.track_number + 1) % UINT32_MOD)) 44 rfl
    (get?_concat_length' _ _)]
  dsimp only
  rw [fsWrite_append_single _ _ _ _ _ (by rw [hasFile_fsWrite]; exact hfresh),
    fileWrite_wavHeader, set_concat_length, mod32_588, List.length_set]
  exact if_pos rfl

theorem step_boundary_next_fail (sys : Sys) (s : State) (chunk : List Nat)
    (f : Nat) (n : String) (p : Nat) (hc : chunk.length ≠ 0)
    (hfd : s.track_fd = Int.ofNat f) (he : sys.fds.get? f = some ⟨n, p, true⟩)
    (hbd : is_track_start (readIntoBuf s.buf chunk) = true)
    (hstale : hasFile sys.disk (trackName ((s.track_number + 1) % UINT32_MOD)) = true) :
    step sys s chunk =
      (⟨fsWrite sys.disk n 0 (wavHeader s.num_samples),
        sys.fds.set f ⟨n, 44, false⟩,
        sys.log ++ [LogLine.diag s.output_file_name (durC s.start_offset s.offset)
            s.start_offset s.offset,
          LogLine.openErr (trackName ((s.track_number + 1) % UINT32_MOD))]⟩,
        { s with
          buf := readIntoBuf s.buf chunk
          output_file_name := trackName ((s.track_number + 1) % UINT32_MOD)
          start_offset := s.offset
          end_offset := s.offset
          track_fd := -1
          track_number := (s.track_number + 1) % UINT32_MOD
          num_samples := 0 }, false) := by
  rw [step]
  simp only [if_neg hc, hbd, if_true]
  rw [close_track_open sys
    { s with
      buf := readIntoBuf s.buf chunk
      track_number := (s.track_number + 1) % UINT32_MOD } f n p hfd he]
  dsimp only
  rw [start_track_fail
    ⟨fsWrite sys.disk n 0 (wavHeader s.num_samples),
      sys.fds.set f ⟨n, 44, false⟩,
      sys.log ++ [LogLine.diag s.output_file_name (durC s.start_offset s.offset)
        s.start_offset s.offset]⟩
    { s with
      buf := readIntoBuf s.buf chunk
      track_number := (s.track_number + 1) % UINT32_MOD
      end_offset := s.offset }
    (by
      have h1 : (⟨fsWrite sys.disk n 0 (wavHeader s.num_samples),
          sys.fds.set f ⟨n, 44, false⟩,
          sys.log ++ [LogLine.diag s.output_file_name (durC s.start_offset s.offset)
            s.start_offset s.offset]⟩ : Sys).disk
          = fsWrite sys.disk n 0 (wavHeader s.num_samples) := rfl
      rw [h1, hasFile_fsWrite]
      exact hstale)]
  dsimp only
  simp only [Bool.false_eq_true, if_false]
  rw [List.append_assoc]
  rfl

theorem step_boundary_first_fail (sys : Sys) (s : State) (chunk : List Nat)
    (hc : chunk.length ≠ 0) (hfd : s.track_fd = -1)
    (hbd : is_track_start (readIntoBuf s.buf chunk) = true)
    (hstale : hasFile sys.disk (trackName ((s.track_number + 1) % UINT32_MOD)) = true) :
    step sys s chunk =
      ({ sys with
          log := sys.log ++ [LogLine.openErr (trackName ((s.track_number + 1) % UINT32_MOD))] },
        { s with
          buf := readIntoBuf s.buf chunk
          output_file_name := trackName ((s.track_number + 1) % UINT32_MOD)
          start_offset := s.offset
          track_fd := -1
          track_number := (s.track_number + 1) % UINT32_MOD
          num_samples := 0 }, false) := by
  rw [step]
  simp only [if_neg hc, hbd, if_true]
  rw [close_track_invalid sys
    { s with
      buf := readIntoBuf s.buf chunk
      track_number := (s.track_number + 1) % UINT32_MOD } hfd]
  dsimp only
  rw [start_track_fail sys
    { s with
      buf := readIntoBuf s.buf chunk
      track_number := (s.track_number + 1) % UINT32_MOD } hstale]
  dsimp only
  simp only [Bool.false_eq_true, if_false]

/-! ### The loop equations -/

theorem runLoop_nil (sys : Sys) (s : State) : runLoop sys s [] = close_track sys s := rfl

theorem runLoop_cons_cont (sys sys' : Sys) (s s' : State) (c : List Nat)
    (rest : List (List Nat)) (h : step sys s c = (sys', s', true)) :
    runLoop sys s (c :: rest) = runLoop sys' s' rest := by
  rw [runLoop, h]
  rfl

theorem runLoop_cons_break (sys sys' : Sys) (s s' : State) (c : List Nat)
    (rest : List (List Nat)) (h : step sys s c = (sys', s', false)) :
    runLoop sys s (c :: rest) = close_track sys' s' := by
  rw [runLoop, h]
  rfl



/-! ### Size constants -/

theorem BLOCK_SIZE_ne_zero : BLOCK_SIZE ≠ 0 := by
  rw [BLOCK_SIZE, DATA_SIZE, SUBCODE_SIZE]
  decide

theorem DATA_SIZE_le_BLOCK_SIZE : DATA_SIZE ≤ BLOCK_SIZE := by
  rw [BLOCK_SIZE]
  exact Nat.le_add_right _ _

/-! ### Generic projections of the system calls -/

theorem sysWrite_log (sys : Sys) (fd : Int) (data : List Nat) :
    (sysWrite sys fd data).log = sys.log := by
  rw [sysWrite]
  split
  · rfl
  · split
    · rfl
    · split <;> rfl

theorem sysWrite_keys (sys : Sys) (fd : Int) (data : List Nat) :
    (sysWrite sys fd data).disk.map Prod.fst = sys.disk.map Prod.fst := by
  rw [sysWrite]
  split
  · rfl
  · split
    · rfl
    · split
      · exact fsWrite_map_fst _ _ _ _
      · rfl

theorem sysSeek0_disk (sys : Sys) (fd : Int) : (sysSeek0 sys fd).disk = sys.disk := by
  rw [sysSeek0]
  split
  · rfl
  · split
    · rfl
    · split <;> rfl

theorem sysSeek0_log (sys : Sys) (fd : Int) : (sysSeek0 sys fd).log = sys.log := by
  rw [sysSeek0]
  split
  · rfl
  · split
    · rfl
    · split <;> rfl

theorem sysClose_disk (sys : Sys) (fd : Int) : (sysClose sys fd).disk = sys.disk := by
  rw [sysClose]
  split
  · rfl
  · split <;> rfl

theorem sysClose_log (sys : Sys) (fd : Int) : (sysClose sys fd).log = sys.log := by
  rw [sysClose]
  split
  · rfl
  · split <;> rfl

theorem write_wav_header_log (sys : Sys) (fd : Int) (ns : Nat) :
    (write_wav_header sys fd ns).log = sys.log := by
  rw [write_wav_header, sysWrite_log, sysSeek0_log]

theorem write_wav_header_keys (sys : Sys) (fd : Int) (ns : Nat) :
    (write_wav_header sys fd ns).disk.map Prod.fst = sys.disk.map Prod.fst := by
  rw [write_wav_header, sysWrite_keys, sysSeek0_disk]

theorem hasFile_of_keys_eq (d1 d2 : List (String × List Nat)) (n : String)
    (h : d1.map Prod.fst = d2.map Prod.fst) : hasFile d1 n = hasFile d2 n := by
  cases h1 : hasFile d2 n
  · cases h2 : hasFile d1 n
    · rfl
    · have := (hasFile_iff _ _).mp h2
      rw [h] at this
      rw [(hasFile_iff _ _).mpr this] at h1
      exact h1
  · exact (hasFile_iff _ _).mpr (by rw [h]; exact (hasFile_iff _ _).mp h1)

/-! ### Generic projections of the track operations -/

theorem close_track_snd (sys : Sys) (s : State) :
    (close_track sys s).2 = if s.track_fd = -1 then s else { s with end_offset := s.offset } := by
  rw [close_track]
  split <;> rfl

theorem close_track_keys (sys : Sys) (s : State) :
    (close_track sys s).1.disk.map Prod.fst = sys.disk.map Prod.fst := by
  rw [close_track]
  split
  · rfl
  · show ((sysClose (write_wav_header _ _ _) _).disk).map Prod.fst = _
    rw [sysClose_disk, write_wav_header_keys]

theorem close_track_hasFile (sys : Sys) (s : State) (n : String) :
    hasFile (close_track sys s).1.disk n = hasFile sys.disk n :=
  hasFile_of_keys_eq _ _ _ (close_track_keys sys s)

theorem close_track_log_invalid (sys : Sys) (s : State) (h : s.track_fd = -1) :
    (close_track sys s).1.log = sys.log := by
  rw [close_track_invalid sys s h]

theorem close_track_log_valid (sys : Sys) (s : State) (h : ¬s.track_fd = -1) :
    (close_track sys s).1.log = sys.log
      ++ [LogLine.diag s.output_file_name (durC s.start_offset s.offset)
            s.start_offset s.offset] := by
  rw [close_track, if_neg h]
  show (sysClose (write_wav_header _ _ _) _).log = _
  rw [sysClose_log, write_wav_header_log]

theorem update_track_log (sys : Sys) (s : State) :
    (update_track sys s).1.log = sys.log := by
  rw [update_track]
  split
  · rfl
  · exact sysWrite_log _ _ _

theorem update_track_keys (sys : Sys) (s : State) :
    (update_track sys s).1.disk.map Prod.fst = sys.disk.map Prod.fst := by
  rw [update_track]
  split
  · rfl
  · exact sysWrite_keys _ _ _

theorem update_track_snd_fields (sys : Sys) (s : State) :
    (update_track sys s).2.buf = s.buf ∧
    (update_track sys s).2.offset = s.offset ∧
    (update_track sys s).2.track_fd = s.track_fd ∧
    (update_track sys s).2.track_number = s.track_number ∧
    (update_track sys s).2.start_offset = s.start_offset ∧
    (update_track sys s).2.output_file_name = s.output_file_name := by
  rw [update_track]
  split <;> exact ⟨rfl, rfl, rfl, rfl, rfl, rfl⟩

theorem close_track_snd_track_number (sys : Sys) (s : State) :
    (close_track sys s).2.track_number = s.track_number := by
  rw [close_track_snd]
  split <;> rfl

theorem close_track_snd_offset (sys : Sys) (s : State) :
    (close_track sys s).2.offset = s.offset := by
  rw [close_track_snd]
  split <;> rfl

theorem close_track_snd_buf (sys : Sys) (s : State) :
    (close_track sys s).2.buf = s.buf := by
  rw [close_track_snd]
  split <;> rfl

theorem close_track_snd_track_fd (sys : Sys) (s : State) :
    (close_track sys s).2.track_fd = s.track_fd := by
  rw [close_track_snd]
  split <;> rfl

theorem close_track_snd_start_offset (sys : Sys) (s : State) :
    (close_track sys s).2.start_offset = s.start_offset := by
  rw [close_track_snd]
  split <;> rfl

/-! ### Descriptor-agnostic characterizations of one iteration -/

theorem step_nonboundary_any (sys : Sys) (s : State) (chunk : List Nat)
    (hc : chunk.length ≠ 0)
    (hnb : is_track_start (readIntoBuf s.buf chunk) = false) :
    step sys s chunk =
      ((update_track sys { s with buf := readIntoBuf s.buf chunk }).1,
       { (update_track sys { s with buf := readIntoBuf s.buf chunk }).2 with
          offset := ((update_track sys { s with buf := readIntoBuf s.buf chunk }).2.offset
            + BLOCK_SIZE) % UINT64_MOD }, true) := by
  rw [step]
  simp only [if_neg hc, hnb, Bool.false_eq_true, if_false]

theorem step_boundary_success_any (sys : Sys) (s : State) (chunk : List Nat)
    (hc : chunk.length ≠ 0)
    (hbd : is_track_start (readIntoBuf s.buf chunk) = true)
    (hfresh : hasFile sys.disk (trackName ((s.track_number + 1) % UINT32_MOD)) = false) :
    step sys s chunk =
      (let p := close_track sys
        { s with
          buf := readIntoBuf s.buf chunk
          track_number := (s.track_number + 1) % UINT32_MOD }
      ({ p.1 with
          disk := p.1.disk ++ [(trackName ((s.track_number + 1) % UINT32_MOD),
            wavHeader 0 ++ (readIntoBuf s.buf chunk).take DATA_SIZE)]
          fds := p.1.fds ++ [⟨trackName ((s.track_number + 1) % UINT32_MOD),
            44 + ((readIntoBuf s.buf chunk).take DATA_SIZE).length, true⟩] },
        { p.2 with
          output_file_name := trackName ((s.track_number + 1) % UINT32_MOD)
          start_offset := s.offset
          track_fd := Int.ofNat p.1.fds.length
          num_samples := 588
          offset := (s.offset + BLOCK_SIZE) % UINT64_MOD }, true)) := by
  rw [step]
  simp only [if_neg hc, hbd, if_true]
  rw [start_track_success
    (close_track sys
      { s with
        buf := readIntoBuf s.buf chunk
        track_number := (s.track_number + 1) % UINT32_MOD }).1
    (close_track sys
      { s with
        buf := readIntoBuf s.buf chunk
        track_number := (s.track_number + 1) % UINT32_MOD }).2
    (by
      rw [close_track_hasFile, close_track_snd_track_number]
      exact hfresh)]
  rw [close_track_snd_track_number, close_track_snd_offset]
  dsimp only
  rw [update_track_open _ _
    (close_track sys
      { s with
        buf := readIntoBuf s.buf chunk
        track_number := (s.track_number + 1) % UINT32_MOD }).1.fds.length
    (trackName ((s.track_number + 1) % UINT32_MOD)) 44 rfl
    (get?_concat_length' _ _)]
  dsimp only
  rw [close_track_snd_buf]
  dsimp only
  rw [fsWrite_append_single _ _ _ _ _ (by rw [close_track_hasFile]; exact hfresh),
    fileWrite_wavHeader, set_concat_length, mod32_588]
  exact if_pos rfl

theorem step_boundary_fail_any (sys : Sys) (s : State) (chunk : List Nat)
    (hc : chunk.length ≠ 0)
    (hbd : is_track_start (readIntoBuf s.buf chunk) = true)
    (hstale : hasFile sys.disk (trackName ((s.track_number + 1) % UINT32_MOD)) = true) :
    step sys s chunk =
      (let p := close_track sys
        { s with
          buf := readIntoBuf s.buf chunk
          track_number := (s.track_number + 1) % UINT32_MOD }
      ({ p.1 with
          log := p.1.log ++ [LogLine.openErr (trackName ((s.track_number + 1) % UINT32_MOD))] },
        { p.2 with
          output_file_name := trackName ((s.track_number + 1) % UINT32_MOD)
          start_offset := s.offset
          track_fd := -1
          num_samples := 0 }, false)) := by
  rw [step]
  simp only [if_neg hc, hbd, if_true]
  rw [start_track_fail
    (close_track sys
      { s with
        buf := readIntoBuf s.buf chunk
        track_number := (s.track_number + 1) % UINT32_MOD }).1
    (close_track sys
      { s with
        buf := readIntoBuf s.buf chunk
        track_number := (s.track_number + 1) % UINT32_MOD }).2
    (by
      rw [close_track_hasFile, close_track_snd_track_number]
      exact hstale)]
  rw [close_track_snd_track_number, close_track_snd_offset]
  dsimp only
  simp only [Bool.false_eq_true, if_false]

/-! ### Arithmetic accumulation helpers -/

theorem mod64_lt (a : Nat) : a % UINT64_MOD < UINT64_MOD :=
  Nat.mod_lt _ (by rw [UINT64_MOD]; omega)

theorem mod32_lt (a : Nat) : a % UINT32_MOD < UINT32_MOD :=
  Nat.mod_lt _ (by rw [UINT32_MOD]; omega)

theorem offset_acc (a k : Nat) :
    ((a + BLOCK_SIZE) % UINT64_MOD + BLOCK_SIZE * k) % UINT64_MOD
      = (a + BLOCK_SIZE * (k + 1)) % UINT64_MOD := by
  rw [Nat.mod_add_mod, Nat.mul_succ]
  congr 1
  omega

theorem ns_acc (a k : Nat) :
    ((a + 588) % UINT32_MOD + 588 * k) % UINT32_MOD
      = (a + 588 * (k + 1)) % UINT32_MOD := by
  rw [Nat.mod_add_mod, Nat.mul_succ]
  congr 1
  omega

/-! ### Skipping a prefix of non-boundary sectors with no session open -/

theorem runLoop_skip (pre : List (List Nat)) :
    ∀ (sys : Sys) (s : State) (rest : List (List Nat)),
      s.track_fd = -1 → s.buf.length = BLOCK_SIZE → s.offset < UINT64_MOD →
      (∀ c ∈ pre, c.length = BLOCK_SIZE ∧ is_track_start c = false) →
      runLoop sys s (pre ++ rest) = runLoop sys
        { s with
          buf := pre.foldl readIntoBuf s.buf
          offset := (s.offset + BLOCK_SIZE * pre.length) % UINT64_MOD } rest := by
  induction pre with
  | nil =>
    intro sys s rest hfd hbuf ho hpre
    simp only [List.nil_append, List.foldl_nil, List.length_nil, Nat.mul_zero,
      Nat.add_zero, Nat.mod_eq_of_lt ho]
  | cons c pre ih =>
    intro sys s rest hfd hbuf ho hpre
    obtain ⟨hcl, hcb⟩ := hpre c (List.mem_cons_self c pre)
    have hcne : c.length ≠ 0 := by rw [hcl]; exact BLOCK_SIZE_ne_zero
    have hrb : readIntoBuf s.buf c = c := readIntoBuf_full _ _ (by rw [hbuf, hcl])
    rw [List.cons_append]
    rw [runLoop_cons_cont _ _ _ _ _ _
      (step_nonboundary_closed sys s c hcne hfd (by rw [hrb]; exact hcb))]
    rw [ih sys
      { s with
        buf := readIntoBuf s.buf c
        offset := (s.offset + BLOCK_SIZE) % UINT64_MOD } rest hfd
      (by show (readIntoBuf s.buf c).length = BLOCK_SIZE; rw [hrb, hcl])
      (mod64_lt _)
      (fun d hd => hpre d (List.mem_cons_of_mem _ hd))]
    dsimp only
    rw [List.foldl_cons, List.length_cons, offset_acc]

/-! ### The final environment does not depend on the initial buffer when every
remaining read is a full sector -/

theorem step_full_buf_irrel (sys : Sys) (s : State) (b c : List Nat)
    (hc : c.length = BLOCK_SIZE) (hs : s.buf.length = BLOCK_SIZE)
    (hb : b.length = BLOCK_SIZE) :
    step sys { s with buf := b } c = step sys s c := by
  rw [step, step]
  rw [show readIntoBuf ({ s with buf := b } : State).buf c = c from
    readIntoBuf_full _ _ (by rw [show ({ s with buf := b } : State).buf = b from rfl, hb, hc])]
  rw [show readIntoBuf s.buf c = c from readIntoBuf_full _ _ (by rw [hs, hc])]

theorem close_track_fst_buf_irrel (sys : Sys) (s : State) (b : List Nat) :
    (close_track sys { s with buf := b }).1 = (close_track sys s).1 := by
  by_cases h : s.track_fd = -1
  · rw [close_track_invalid sys s h, close_track_invalid sys { s with buf := b } h]
  · rw [close_track, close_track, if_neg h, if_neg (show ¬({ s with buf := b } : State).track_fd = -1 from h)]

theorem runLoop_fst_buf_irrel (input : List (List Nat))
    (hin : ∀ c ∈ input, c.length = BLOCK_SIZE) :
    ∀ (sys : Sys) (s : State) (b : List Nat), s.buf.length = BLOCK_SIZE →
      b.length = BLOCK_SIZE →
      (runLoop sys { s with buf := b } input).1 = (runLoop sys s input).1 := by
  induction input with
  | nil =>
    intro sys s b hs hb
    rw [runLoop_nil, runLoop_nil, close_track_fst_buf_irrel]
  | cons c rest ih =>
    intro sys s b hs hb
    rw [runLoop, runLoop, step_full_buf_irrel sys s b c (hin c (List.mem_cons_self c rest)) hs hb]

/-! ### Appending non-boundary sectors to the open track -/

theorem payloads_nil : payloads [] = [] := rfl

theorem payloads_cons (c : List Nat) (l : List (List Nat)) :
    payloads (c :: l) = c.take DATA_SIZE ++ payloads l := by
  simp [payloads]

theorem take_data_length (c : List Nat) (hc : c.length = BLOCK_SIZE) :
    (c.take DATA_SIZE).length = DATA_SIZE := by
  rw [List.length_take, hc]
  exact Nat.min_eq_left DATA_SIZE_le_BLOCK_SIZE

theorem pos_acc (a k : Nat) :
    a + DATA_SIZE + DATA_SIZE * k = a + DATA_SIZE * (k + 1) := by
  rw [Nat.mul_succ]
  omega

theorem runLoop_mid (mid : List (List Nat)) :
    ∀ (D : List (String × List Nat)) (n : String) (C : List Nat) (L : List LogLine)
      (s : State) (rest : List (List Nat)),
      hasFile D n = false → s.track_fd = Int.ofNat 0 → s.buf.length = BLOCK_SIZE →
      s.offset < UINT64_MOD → s.num_samples < UINT32_MOD →
      (∀ c ∈ mid, c.length = BLOCK_SIZE ∧ is_track_start c = false) →
      runLoop ⟨D ++ [(n, C)], [⟨n, C.length, true⟩], L⟩ s (mid ++ rest)
        = runLoop ⟨D ++ [(n, C ++ payloads mid)],
            [⟨n, C.length + DATA_SIZE * mid.length, true⟩], L⟩
            { s with
              buf := mid.foldl readIntoBuf s.buf
              num_samples := (s.num_samples + 588 * mid.length) % UINT32_MOD
              offset := (s.offset + BLOCK_SIZE * mid.length) % UINT64_MOD } rest := by
  induction mid with
  | nil =>
    intro D n C L s rest hD hfd hbuf ho hns hmid
    simp only [List.nil_append, List.foldl_nil, List.length_nil, Nat.mul_zero,
      Nat.add_zero, Nat.mod_eq_of_lt ho, Nat.mod_eq_of_lt hns, payloads_nil,
      List.append_nil]
  | cons c mid ih =>
    intro D n C L s rest hD hfd hbuf ho hns hmid
    obtain ⟨hcl, hcb⟩ := hmid c (List.mem_cons_self c mid)
    have hcne : c.length ≠ 0 := by rw [hcl]; exact BLOCK_SIZE_ne_zero
    have hrb : readIntoBuf s.buf c = c := readIntoBuf_full _ _ (by rw [hbuf, hcl])
    have htake : (c.take DATA_SIZE).length = DATA_SIZE := take_data_length c hcl
    rw [List.cons_append]
    rw [runLoop_cons_cont _ _ _ _ _ _
      (step_nonboundary_open ⟨D ++ [(n, C)], [⟨n, C.length, true⟩], L⟩ s c 0 n
        C.length hcne hfd rfl (by rw [hrb]; exact hcb))]
    rw [show fsWrite (D ++ [(n, C)]) n C.length ((readIntoBuf s.buf c).take DATA_SIZE)
        = D ++ [(n, C ++ c.take DATA_SIZE)] from by
      rw [fsWrite_append_single _ _ _ _ _ hD, fileWrite_at_end, hrb]]
    rw [show ([⟨n, C.length, true⟩] : List FdEntry).set 0
          ⟨n, C.length + ((readIntoBuf s.buf c).take DATA_SIZE).length, true⟩
        = [⟨n, (C ++ c.take DATA_SIZE).length, true⟩] from by
      rw [hrb, List.length_append, htake]
      rfl]
    rw [ih D n (C ++ c.take DATA_SIZE) L
      { s with
        buf := readIntoBuf s.buf c
        num_samples := (s.num_samples + 588) % UINT32_MOD
        offset := (s.offset + BLOCK_SIZE) % UINT64_MOD } rest hD hfd
      (by show (readIntoBuf s.buf c).length = BLOCK_SIZE; rw [hrb, hcl])
      (mod64_lt _) (mod32_lt _)
      (fun d hd => hmid d (List.mem_cons_of_mem _ hd))]
    dsimp only
    rw [List.foldl_cons, List.length_cons, List.length_append, htake,
      offset_acc, ns_acc, pos_acc, payloads_cons, List.append_assoc]

/-! ### Preservation of pre-existing files -/

theorem get?_mem {α : Type} (l : List α) (i : Nat) (a : α) (h : l.get? i = some a) :
    a ∈ l := by
  rw [List.get?_eq_getElem?] at h
  exact List.getElem?_mem h

theorem sysWrite_preserve (sys : Sys) (fd : Int) (data : List Nat) (n : String)
    (hav : avoidsOpen sys n) :
    getFile (sysWrite sys fd data).disk n = getFile sys.disk n
      ∧ hasFile (sysWrite sys fd data).disk n = hasFile sys.disk n
      ∧ avoidsOpen (sysWrite sys fd data) n := by
  rw [sysWrite]
  split
  · exact ⟨rfl, rfl, hav⟩
  · split
    · exact ⟨rfl, rfl, hav⟩
    · next e he =>
      split
      · next hopen =>
        have hmem : e ∈ sys.fds := get?_mem _ _ _ he
        have hne : e.name ≠ n := hav e hmem hopen
        refine ⟨getFile_fsWrite_ne _ _ _ _ _ (Ne.symm hne), hasFile_fsWrite _ _ _ _ _, ?_⟩
        intro e2 hmem2 hopen2
        rcases List.mem_or_eq_of_mem_set hmem2 with h2 | h2
        · exact hav e2 h2 hopen2
        · subst h2
          exact hne
      · exact ⟨rfl, rfl, hav⟩

theorem sysSeek0_preserve (sys : Sys) (fd : Int) (n : String)
    (hav : avoidsOpen sys n) :
    (sysSeek0 sys fd).disk = sys.disk ∧ avoidsOpen (sysSeek0 sys fd) n := by
  rw [sysSeek0]
  split
  · exact ⟨rfl, hav⟩
  · split
    · exact ⟨rfl, hav⟩
    · next e he =>
      split
      · next hopen =>
        have hmem : e ∈ sys.fds := get?_mem _ _ _ he
        have hne : e.name ≠ n := hav e hmem hopen
        refine ⟨rfl, ?_⟩
        intro e2 hmem2 hopen2
        rcases List.mem_or_eq_of_mem_set hmem2 with h2 | h2
        · exact hav e2 h2 hopen2
        · subst h2
          exact hne
      · exact ⟨rfl, hav⟩

theorem sysClose_preserve (sys : Sys) (fd : Int) (n : String)
    (hav : avoidsOpen sys n) :
    (sysClose sys fd).disk = sys.disk ∧ avoidsOpen (sysClose sys fd) n := by
  rw [sysClose]
  split
  · exact ⟨rfl, hav⟩
  · split
    · exact ⟨rfl, hav⟩
    · next e he =>
      refine ⟨rfl, ?_⟩
      intro e2 hmem2 hopen2
      rcases List.mem_or_eq_of_mem_set hmem2 with h2 | h2
      · exact hav e2 h2 hopen2
      · subst h2
        exact absurd hopen2 (by simp)

theorem write_wav_header_preserve (sys : Sys) (fd : Int) (ns : Nat) (n : String)
    (hav : avoidsOpen sys n) :
    getFile (write_wav_header sys fd ns).disk n = getFile sys.disk n
      ∧ hasFile (write_wav_header sys fd ns).disk n = hasFile sys.disk n
      ∧ avoidsOpen (write_wav_header sys fd ns) n := by
  obtain ⟨h1, h2⟩ := sysSeek0_preserve sys fd n hav
  obtain ⟨h3, h4, h5⟩ := sysWrite_preserve (sysSeek0 sys fd) fd (wavHeader ns) n h2
  rw [write_wav_header]
  rw [h1] at h3 h4
  exact ⟨h3, h4, h5⟩

theorem close_track_preserve (sys : Sys) (s : State) (n : String)
    (hav : avoidsOpen sys n) :
    getFile (close_track sys s).1.disk n = getFile sys.disk n
      ∧ hasFile (close_track sys s).1.disk n = hasFile sys.disk n
      ∧ avoidsOpen (close_track sys s).1 n := by
  rw [close_track]
  split
  · exact ⟨rfl, rfl, hav⟩
  · obtain ⟨h3, h4, h5⟩ := write_wav_header_preserve
      { sys with
        log := sys.log ++ [LogLine.diag s.output_file_name (durC s.start_offset s.offset)
          s.start_offset s.offset] } s.track_fd s.num_samples n hav
    obtain ⟨h6, h7⟩ := sysClose_preserve _ s.track_fd n h5
    dsimp only
    rw [h6]
    exact ⟨h3, h4, h7⟩

theorem update_track_preserve (sys : Sys) (s : State) (n : String)
    (hav : avoidsOpen sys n) :
    getFile (update_track sys s).1.disk n = getFile sys.disk n
      ∧ hasFile (update_track sys s).1.disk n = hasFile sys.disk n
      ∧ avoidsOpen (update_track sys s).1 n := by
  rw [update_track]
  split
  · exact ⟨rfl, rfl, hav⟩
  · exact sysWrite_preserve sys s.track_fd (s.buf.take DATA_SIZE) n hav

theorem start_track_preserve (sys : Sys) (s : State) (n : String)
    (hn : hasFile sys.disk n = true) (hav : avoidsOpen sys n) :
    getFile (start_track sys s).1.disk n = getFile sys.disk n
      ∧ hasFile (start_track sys s).1.disk n = hasFile sys.disk n
      ∧ avoidsOpen (start_track sys s).1 n := by
  by_cases hh : hasFile sys.disk (trackName s.track_number) = true
  · rw [start_track_fail sys s hh]
    exact ⟨rfl, rfl, hav⟩
  · have hh2 : hasFile sys.disk (trackName s.track_number) = false :=
      Bool.not_eq_true _ ▸ eq_false_of_ne_true hh
    rw [start_track_success sys s hh2]
    have hmn : trackName s.track_number ≠ n := by
      intro hc
      rw [hc, hn] at hh2
      exact Bool.true_eq_false.mp hh2
    refine ⟨getFile_append_left _ _ _ hn, ?_, ?_⟩
    · rw [show ({ sys with
          disk := sys.disk ++ [(trackName s.track_number, wavHeader 0)]
          fds := sys.fds ++ [⟨trackName s.track_number, 44, true⟩] } : Sys).disk
        = sys.disk ++ [(trackName s.track_number, wavHeader 0)] from rfl]
      rw [hasFile_append, hn]
      rfl
    · intro e he hopen
      rcases List.mem_append.mp he with h | h
      · exact hav e h hopen
      · rw [List.mem_singleton.mp h]
        exact hmn

theorem step_preserve (sys : Sys) (s : State) (chunk : List Nat) (n : String)
    (hn : hasFile sys.disk n = true) (hav : avoidsOpen sys n) :
    getFile (step sys s chunk).1.disk n = getFile sys.disk n
      ∧ hasFile (step sys s chunk).1.disk n = hasFile sys.disk n
      ∧ avoidsOpen (step sys s chunk).1 n := by
  by_cases hc : chunk.length = 0
  · have hnil : chunk = [] := List.length_eq_zero.mp hc
    subst hnil
    rw [step_nil]
    exact ⟨rfl, rfl, hav⟩
  · rw [step]
    simp only [if_neg hc]
    split
    · obtain ⟨c1, c2, c3⟩ := close_track_preserve sys
        { s with
          buf := readIntoBuf s.buf chunk
          track_number := (s.track_number + 1) % UINT32_MOD } n hav
      obtain ⟨s1, s2, s3⟩ := start_track_preserve _ _ n (by rw [c2]; exact hn) c3
      split
      · obtain ⟨u1, u2, u3⟩ := update_track_preserve _ _ n s3
        dsimp only
        rw [u1, s1, c1]
        rw [u2, s2, c2]
        exact ⟨rfl, rfl, u3⟩
      · dsimp only
        rw [s1, c1, s2, c2]
        exact ⟨rfl, rfl, s3⟩
    · obtain ⟨u1, u2, u3⟩ := update_track_preserve sys
        { s with buf := readIntoBuf s.buf chunk } n hav
      dsimp only
      rw [u1, u2]
      exact ⟨rfl, rfl, u3⟩

theorem runLoop_preserves (input : List (List Nat)) :
    ∀ (sys : Sys) (s : State) (n : String), hasFile sys.disk n = true →
      avoidsOpen sys n →
      getFile ((runLoop sys s input).1.disk) n = getFile sys.disk n := by
  induction input with
  | nil =>
    intro sys s n hn hav
    rw [runLoop_nil]
    exact (close_track_preserve sys s n hav).1
  | cons c rest ih =>
    intro sys s n hn hav
    obtain ⟨h1, h2, h3⟩ := step_preserve sys s c n hn hav
    rw [runLoop]
    split
    · rw [ih (step sys s c).1 (step sys s c).2.1 n (by rw [h2]; exact hn) h3, h1]
    · rw [(close_track_preserve (step sys s c).1 (step sys s c).2.1 n h3).1, h1]

/-! ### The disk file names created by a run -/

theorem countB_cons_true (c : List Nat) (l : List (List Nat))
    (h : is_track_start c = true) : countB (c :: l) = countB l + 1 := by
  simp [countB, List.countP_cons, h]

theorem countB_cons_false (c : List Nat) (l : List (List Nat))
    (h : is_track_start c = false) : countB (c :: l) = countB l := by
  simp [countB, List.countP_cons, h]

theorem runLoop_cons_eq (sys : Sys) (s : State) (c : List Nat)
    (rest : List (List Nat)) :
    runLoop sys s (c :: rest)
      = if (step sys s c).2.2 then runLoop (step sys s c).1 (step sys s c).2.1 rest
        else close_track (step sys s c).1 (step sys s c).2.1 := by
  rw [runLoop]

theorem runLoop_cons_of_true (sys : Sys) (s : State) (c : List Nat)
    (rest : List (List Nat)) (h : (step sys s c).2.2 = true) :
    runLoop sys s (c :: rest) = runLoop (step sys s c).1 (step sys s c).2.1 rest := by
  rw [runLoop_cons_eq, if_pos h]

theorem runLoop_cons_of_false (sys : Sys) (s : State) (c : List Nat)
    (rest : List (List Nat)) (h : (step sys s c).2.2 = false) :
    runLoop sys s (c :: rest) = close_track (step sys s c).1 (step sys s c).2.1 := by
  rw [runLoop_cons_eq, h]
  simp

theorem trackName_fresh_of_keys (d : List (String × List Nat)) (j : Nat)
    (hkeys : d.map Prod.fst = (List.range' 1 j).map trackName) :
    hasFile d (trackName (j + 1)) = false := by
  cases hht : hasFile d (trackName (j + 1)) with
  | false => rfl
  | true =>
    exfalso
    have hm := (hasFile_iff _ _).mp hht
    rw [hkeys] at hm
    obtain ⟨i, hi, hieq⟩ := List.mem_map.mp hm
    have hij := trackName_inj _ _ hieq
    rw [List.mem_range'] at hi
    obtain ⟨v, hv, hiv⟩ := hi
    omega

theorem runLoop_keys (input : List (List Nat)) :
    ∀ (sys : Sys) (s : State) (j : Nat),
      (∀ c ∈ input, c.length = BLOCK_SIZE) →
      sys.disk.map Prod.fst = (List.range' 1 j).map trackName →
      s.track_number = j → s.buf.length = BLOCK_SIZE →
      j + countB input < UINT32_MOD →
      (runLoop sys s input).1.disk.map Prod.fst
        = (List.range' 1 (j + countB input)).map trackName := by
  induction input with
  | nil =>
    intro sys s j hin hkeys htn hbuf hbound
    rw [runLoop_nil, close_track_keys, hkeys]
    rfl
  | cons c rest ih =>
    intro sys s j hin hkeys htn hbuf hbound
    have hcl : c.length = BLOCK_SIZE := hin c (List.mem_cons_self c rest)
    have hcne : c.length ≠ 0 := by rw [hcl]; exact BLOCK_SIZE_ne_zero
    have hrb : readIntoBuf s.buf c = c := readIntoBuf_full _ _ (by rw [hbuf, hcl])
    by_cases hbd : is_track_start (readIntoBuf s.buf c) = true
    · have hbc : is_track_start c = true := by rw [← hrb]; exact hbd
      have hcount : countB (c :: rest) = countB rest + 1 := countB_cons_true c rest hbc
      have htn1 : (s.track_number + 1) % UINT32_MOD = j + 1 := by
        rw [htn]
        exact Nat.mod_eq_of_lt (by omega)
      have hfresh : hasFile sys.disk (trackName ((s.track_number + 1) % UINT32_MOD))
          = false := by
        rw [htn1]
        exact trackName_fresh_of_keys sys.disk j hkeys
      rw [runLoop_cons_of_true sys s c rest
        (by rw [step_boundary_success_any sys s c hcne hbd hfresh])]
      rw [hcount, show j + (countB rest + 1) = j + 1 + countB rest from by omega]
      refine ih _ _ (j + 1) (fun d hd => hin d (List.mem_cons_of_mem _ hd)) ?_ ?_ ?_ ?_
      · rw [step_boundary_success_any sys s c hcne hbd hfresh]
        dsimp only
        rw [List.map_append, close_track_keys, hkeys, htn1, List.range'_concat,
          List.map_append]
        dsimp only [List.map_cons, List.map_nil]
        rw [Nat.one_mul, Nat.add_comm 1 j]
      · rw [step_boundary_success_any sys s c hcne hbd hfresh]
        dsimp only
        rw [close_track_snd_track_number]
        exact htn1
      · rw [step_boundary_success_any sys s c hcne hbd hfresh]
        dsimp only
        rw [close_track_snd_buf]
        show (readIntoBuf s.buf c).length = BLOCK_SIZE
        rw [hrb, hcl]
      · omega
    · have hbd2 : is_track_start (readIntoBuf s.buf c) = false := by
        rw [Bool.not_eq_true] at hbd
        exact hbd
      have hbc : is_track_start c = false := by rw [← hrb]; exact hbd2
      have hcount : countB (c :: rest) = countB rest := countB_cons_false c rest hbc
      rw [runLoop_cons_of_true sys s c rest
        (by rw [step_nonboundary_any sys s c hcne hbd2])]
      rw [hcount]
      refine ih _ _ j (fun d hd => hin d (List.mem_cons_of_mem _ hd)) ?_ ?_ ?_ ?_
      · rw [step_nonboundary_any sys s c hcne hbd2]
        dsimp only
        rw [update_track_keys]
        exact hkeys
      · rw [step_nonboundary_any sys s c hcne hbd2]
        dsimp only
        rw [(update_track_snd_fields _ _).2.2.2.1]
        exact htn
      · rw [step_nonboundary_any sys s c hcne hbd2]
        dsimp only
        rw [(update_track_snd_fields _ _).1]
        show (readIntoBuf s.buf c).length = BLOCK_SIZE
        rw [hrb, hcl]
      · omega

/-! ### The diagnostic lines of a run -/

theorem BLOCK_SIZE_pos : 0 < BLOCK_SIZE := by
  rw [BLOCK_SIZE, DATA_SIZE, SUBCODE_SIZE]
  decide

theorem durC_eq (k m total : Nat) (hk : k ≤ m) (hm : m ≤ total)
    (hb : BLOCK_SIZE * DATA_SIZE * total < UINT64_MOD) :
    durC (BLOCK_SIZE * k) (BLOCK_SIZE * m) = (m - k) * DATA_SIZE / 176400 := by
  rw [durC]
  have hle : BLOCK_SIZE * k ≤ BLOCK_SIZE * m := Nat.mul_le_mul_left _ hk
  have h1 : BLOCK_SIZE * m + UINT64_MOD - BLOCK_SIZE * k
      = BLOCK_SIZE * (m - k) + UINT64_MOD := by
    rw [Nat.mul_sub]
    omega
  rw [h1, Nat.add_mod_right]
  have hmk : m - k ≤ total := by omega
  have hBD : BLOCK_SIZE * (m - k) ≤ BLOCK_SIZE * DATA_SIZE * total := by
    calc BLOCK_SIZE * (m - k) ≤ BLOCK_SIZE * total := Nat.mul_le_mul_left _ hmk
      _ ≤ BLOCK_SIZE * total * DATA_SIZE :=
          Nat.le_mul_of_pos_right _ (by rw [DATA_SIZE]; omega)
      _ = BLOCK_SIZE * DATA_SIZE * total := by ring
  rw [Nat.mod_eq_of_lt (lt_of_le_of_lt hBD hb)]
  have hBD2 : BLOCK_SIZE * (m - k) * DATA_SIZE ≤ BLOCK_SIZE * DATA_SIZE * total := by
    calc BLOCK_SIZE * (m - k) * DATA_SIZE = BLOCK_SIZE * DATA_SIZE * (m - k) := by ring
      _ ≤ BLOCK_SIZE * DATA_SIZE * total := Nat.mul_le_mul_left _ hmk
  rw [Nat.mod_eq_of_lt (lt_of_le_of_lt hBD2 hb)]
  rw [Nat.mul_assoc, Nat.mul_div_cancel_left _ BLOCK_SIZE_pos]

theorem close_track_log_diag_ok (sys : Sys) (s : State) (total i : Nat)
    (hb : BLOCK_SIZE * DATA_SIZE * total < UINT64_MOD)
    (hoff : s.offset = BLOCK_SIZE * i) (hi : i ≤ total)
    (hstart : s.track_fd ≠ -1 → ∃ k, k ≤ i ∧ s.start_offset = BLOCK_SIZE * k)
    (hlog : ∀ nm du st en, LogLine.diag nm du st en ∈ sys.log → DiagOk total du st en) :
    ∀ nm du st en, LogLine.diag nm du st en ∈ (close_track sys s).1.log →
      DiagOk total du st en := by
  by_cases h : s.track_fd = -1
  · rw [close_track_log_invalid sys s h]
    exact hlog
  · rw [close_track_log_valid sys s h]
    intro nm du st en hmem
    rcases List.mem_append.mp hmem with hm | hm
    · exact hlog _ _ _ _ hm
    · have heq := List.mem_singleton.mp hm
      obtain ⟨k, hk, hst⟩ := hstart h
      rw [LogLine.diag.injEq] at heq
      obtain ⟨hnm, hdu, hstq, henq⟩ := heq
      refine ⟨k, i, hk, hi, ?_, ?_, ?_⟩
      · rw [hstq, hst]
      · rw [henq, hoff]
      · rw [hdu, hst, hoff, durC_eq k i total hk hi hb]

theorem runLoop_diag (input : List (List Nat)) :
    ∀ (sys : Sys) (s : State) (i total : Nat),
      (∀ c ∈ input, c.length = BLOCK_SIZE) →
      i + input.length ≤ total →
      BLOCK_SIZE * DATA_SIZE * total < UINT64_MOD →
      s.offset = BLOCK_SIZE * i → s.buf.length = BLOCK_SIZE →
      (s.track_fd ≠ -1 → ∃ k, k ≤ i ∧ s.start_offset = BLOCK_SIZE * k) →
      (∀ nm du st en, LogLine.diag nm du st en ∈ sys.log → DiagOk total du st en) →
      ∀ nm du st en, LogLine.diag nm du st en ∈ (runLoop sys s input).1.log →
        DiagOk total du st en := by
  induction input with
  | nil =>
    intro sys s i total hin hlen hb hoff hbuf hstart hlog
    rw [runLoop_nil]
    exact close_track_log_diag_ok sys s total i hb hoff (by omega) hstart hlog
  | cons c rest ih =>
    intro sys s i total hin hlen hb hoff hbuf hstart hlog
    have hcl := hin c (List.mem_cons_self c rest)
    have hcne : c.length ≠ 0 := by rw [hcl]; exact BLOCK_SIZE_ne_zero
    have hrb : readIntoBuf s.buf c = c := readIntoBuf_full _ _ (by rw [hbuf, hcl])
    have hi1 : i + 1 ≤ total := by
      rw [List.length_cons] at hlen
      omega
    have hoffB : (s.offset + BLOCK_SIZE) % UINT64_MOD = BLOCK_SIZE * (i + 1) := by
      have hlt : BLOCK_SIZE * (i + 1) < UINT64_MOD := by
        apply lt_of_le_of_lt _ hb
        calc BLOCK_SIZE * (i + 1) ≤ BLOCK_SIZE * total := Nat.mul_le_mul_left _ hi1
          _ ≤ BLOCK_SIZE * total * DATA_SIZE :=
              Nat.le_mul_of_pos_right _ (by rw [DATA_SIZE]; omega)
          _ = BLOCK_SIZE * DATA_SIZE * total := by ring
      rw [hoff, ← Nat.mul_succ]
      exact Nat.mod_eq_of_lt hlt
    by_cases hbd : is_track_start (readIntoBuf s.buf c) = true
    · by_cases hh : hasFile sys.disk (trackName ((s.track_number + 1) % UINT32_MOD)) = true
      · rw [runLoop_cons_of_false sys s c rest
          (by rw [step_boundary_fail_any sys s c hcne hbd hh])]
        rw [close_track_log_invalid _ _
          (by rw [step_boundary_fail_any sys s c hcne hbd hh])]
        rw [step_boundary_fail_any sys s c hcne hbd hh]
        dsimp only
        intro nm du st en hmem
        rcases List.mem_append.mp hmem with hm | hm
        · exact close_track_log_diag_ok sys
            { s with
              buf := readIntoBuf s.buf c
              track_number := (s.track_number + 1) % UINT32_MOD }
            total i hb hoff (by omega) hstart hlog nm du st en hm
        · exact absurd (List.mem_singleton.mp hm) (by simp)
      · have hh2 : hasFile sys.disk (trackName ((s.track_number + 1) % UINT32_MOD))
            = false := by
          rw [Bool.not_eq_true] at hh
          exact hh
        rw [runLoop_cons_of_true sys s c rest
          (by rw [step_boundary_success_any sys s c hcne hbd hh2])]
        refine ih _ _ (i + 1) total (fun d hd => hin d (List.mem_cons_of_mem _ hd))
          (by rw [List.length_cons] at hlen; omega) hb ?_ ?_ ?_ ?_
        · rw [step_boundary_success_any sys s c hcne hbd hh2]
          dsimp only
          exact hoffB
        · rw [step_boundary_success_any sys s c hcne hbd hh2]
          dsimp only
          rw [close_track_snd_buf]
          show (readIntoBuf s.buf c).length = BLOCK_SIZE
          rw [hrb, hcl]
        · intro _
          refine ⟨i, by omega, ?_⟩
          rw [step_boundary_success_any sys s c hcne hbd hh2]
          dsimp only
          exact hoff
        · rw [step_boundary_success_any sys s c hcne hbd hh2]
          dsimp only
          exact close_track_log_diag_ok sys
            { s with
              buf := readIntoBuf s.buf c
              track_number := (s.track_number + 1) % UINT32_MOD }
            total i hb hoff (by omega) hstart hlog
    · have hbd2 : is_track_start (readIntoBuf s.buf c) = false := by
        rw [Bool.not_eq_true] at hbd
        exact hbd
      rw [runLoop_cons_of_true sys s c rest
        (by rw [step_nonboundary_any sys s c hcne hbd2])]
      refine ih _ _ (i + 1) total (fun d hd => hin d (List.mem_cons_of_mem _ hd))
        (by rw [List.length_cons] at hlen; omega) hb ?_ ?_ ?_ ?_
      · rw [step_nonboundary_any sys s c hcne hbd2]
        dsimp only
        rw [(update_track_snd_fields _ _).2.1]
        exact hoffB
      · rw [step_nonboundary_any sys s c hcne hbd2]
        dsimp only
        rw [(update_track_snd_fields _ _).1]
        show (readIntoBuf s.buf c).length = BLOCK_SIZE
        rw [hrb, hcl]
      · rw [step_nonboundary_any sys s c hcne hbd2]
        dsimp only
        rw [(update_track_snd_fields _ _).2.2.1, (update_track_snd_fields _ _).2.2.2.2.1]
        intro hfd
        obtain ⟨k, hk, hst⟩ := hstart hfd
        exact ⟨k, by omega, hst⟩
      · rw [step_nonboundary_any sys s c hcne hbd2]
        dsimp only
        rw [update_track_log]
        exact hlog

/-! ### Concrete runs and the claims -/

theorem trackName_ne (m n : Nat) (h : m ≠ n) : trackName m ≠ trackName n :=
  fun he => h (trackName_inj m n he)

theorem hasFile_single_ne (n m : String) (c : List Nat) (h : n ≠ m) :
    hasFile [(n, c)] m = false := by
  simp [hasFile, h]

theorem fsWrite_single_self (n : String) (c data : List Nat) (p : Nat) :
    fsWrite [(n, c)] n p data = [(n, fileWrite c p data)] := by
  simp [fsWrite]

theorem fsWrite_append_pair (D : List (String × List Nat)) (a b : String)
    (x y data : List Nat) (p : Nat) (hD : hasFile D b = false) (hab : a ≠ b) :
    fsWrite (D ++ [(a, x), (b, y)]) b p data = D ++ [(a, x), (b, fileWrite y p data)] := by
  simp only [fsWrite, List.map_append]
  rw [show (List.map (fun q => if q.1 = b then (q.1, fileWrite q.2 p data) else q) D)
      = fsWrite D b p data from rfl, fsWrite_of_not_has _ _ _ _ hD]
  simp [hab]

theorem drop44_header (ns : Nat) (X : List Nat) : (wavHeader ns ++ X).drop 44 = X := by
  rw [show (44 : Nat) = (wavHeader ns).length from (wavHeader_length ns).symm, List.drop_left]

theorem foldl_readIntoBuf_length (l : List (List Nat)) :
    ∀ b : List Nat, b.length = BLOCK_SIZE → (∀ c ∈ l, c.length = BLOCK_SIZE) →
      (l.foldl readIntoBuf b).length = BLOCK_SIZE := by
  induction l with
  | nil =>
    intro b hb _
    exact hb
  | cons c t ih =>
    intro b hb hl
    have hc : c.length = BLOCK_SIZE := hl c (List.mem_cons_self c t)
    rw [List.foldl_cons, readIntoBuf_full b c (by rw [hb, hc])]
    exact ih c hc (fun d hd => hl d (List.mem_cons_of_mem _ hd))

theorem countB_replicate (k : Nat) : countB (List.replicate k secB) = k := by
  induction k with
  | zero => rfl
  | succ m ih =>
    rw [List.replicate_succ, countB_cons_true secB _ secB_boundary, ih]

theorem durC_0B : durC 0 BLOCK_SIZE = 0 := by
  rw [durC, BLOCK_SIZE, DATA_SIZE, SUBCODE_SIZE, UINT64_MOD]

theorem durC_BB : durC BLOCK_SIZE (BLOCK_SIZE + BLOCK_SIZE) = 0 := by
  rw [durC, BLOCK_SIZE, DATA_SIZE, SUBCODE_SIZE, UINT64_MOD]

theorem mod64_B : (0 + BLOCK_SIZE) % UINT64_MOD = BLOCK_SIZE := by
  rw [Nat.zero_add]
  exact Nat.mod_eq_of_lt (by rw [BLOCK_SIZE, DATA_SIZE, SUBCODE_SIZE, UINT64_MOD]; omega)

theorem mod64_BB : (BLOCK_SIZE + BLOCK_SIZE) % UINT64_MOD = BLOCK_SIZE + BLOCK_SIZE :=
  Nat.mod_eq_of_lt (by rw [BLOCK_SIZE, DATA_SIZE, SUBCODE_SIZE, UINT64_MOD]; omega)

theorem mod32_01 : (0 + 1) % UINT32_MOD = 1 := by
  rw [UINT32_MOD]

theorem mod32_12 : (1 + 1) % UINT32_MOD = 2 := by
  rw [UINT32_MOD]

theorem runLoopSpecShortRead_nil (sys : Sys) (s : State) :
    runLoopSpecShortRead sys s [] = close_track sys s := rfl

theorem runLoopSpecShortRead_cons_short (sys : Sys) (s : State) (c : List Nat)
    (rest : List (List Nat)) (h : c.length < BLOCK_SIZE) :
    runLoopSpecShortRead sys s (c :: rest) = close_track sys s := by
  rw [runLoopSpecShortRead, if_pos h]

theorem runLoopSpecShortRead_cons_long (sys : Sys) (s : State) (c : List Nat)
    (rest : List (List Nat)) (h : ¬c.length < BLOCK_SIZE) :
    runLoopSpecShortRead sys s (c :: rest)
      = if (step sys s c).2.2 then runLoopSpecShortRead (step sys s c).1 (step sys s c).2.1 rest
        else close_track (step sys s c).1 (step sys s c).2.1 := by
  rw [runLoopSpecShortRead, if_neg h]

theorem runLoopSpecShortRead_eq_of_full (input : List (List Nat)) :
    (∀ c ∈ input, c.length = BLOCK_SIZE) →
    ∀ (sys : Sys) (s : State), runLoopSpecShortRead sys s input = runLoop sys s input := by
  induction input with
  | nil =>
    intro _ sys s
    rfl
  | cons c rest ih =>
    intro hin sys s
    have hc : c.length = BLOCK_SIZE := hin c (List.mem_cons_self c rest)
    rw [runLoopSpecShortRead_cons_long sys s c rest (by rw [hc]; exact lt_irrefl _),
      runLoop_cons_eq]
    split
    · exact ih (fun d hd => hin d (List.mem_cons_of_mem _ hd)) _ _
    · rfl

theorem valDigits_lt_pow (l : List Nat) (h : ∀ d ∈ l, d < 10) :
    valDigits l < 10 ^ l.length := by
  induction l with
  | nil => decide
  | cons d t ih =>
    have hd : d < 10 := h d (List.mem_cons_self d t)
    have ht : valDigits t < 10 ^ t.length := ih (fun e he => h e (List.mem_cons_of_mem _ he))
    show d + 10 * valDigits t < 10 ^ (t.length + 1)
    rw [Nat.pow_succ, Nat.mul_comm (10 ^ t.length) 10]
    have h2 : 10 * (valDigits t + 1) ≤ 10 * 10 ^ t.length := Nat.mul_le_mul_left 10 ht
    omega

theorem decDigits_length_ge3 (n : Nat) (h : 100 ≤ n) : 3 ≤ (decDigits n).length := by
  by_contra hlt
  have hlen : (decDigits n).length ≤ 2 := by omega
  have hv : valDigits (decDigits n) = n := valDigits_decDigits n
  have hp : valDigits (decDigits n) < 10 ^ (decDigits n).length :=
    valDigits_lt_pow _ (fun d hd => decDigits_lt_base n d hd)
  have hpow : (10 : Nat) ^ (decDigits n).length ≤ 10 ^ 2 :=
    Nat.pow_le_pow_right (by omega) hlen
  rw [hv] at hp
  have : (10 : Nat) ^ 2 = 100 := by norm_num
  omega

theorem string_length_mk (l : List Char) : (String.mk l).length = l.length := rfl

theorem trackName_length_ge13 (n : Nat) (h : 100 ≤ n) : 13 ≤ (trackName n).length := by
  have hpad : pad2 n = decStr n := by rw [pad2, if_neg (by omega)]
  have hn0 : n ≠ 0 := by omega
  have hds : decStr n = String.mk ((decDigits n).reverse.map digitChar) := by
    rw [decStr, if_neg hn0]
  have hlen : (decStr n).length = (decDigits n).length := by
    rw [hds, string_length_mk, List.length_map, List.length_reverse]
  rw [trackName, String.length_append, String.length_append, hpad, hlen]
  have h3 := decDigits_length_ge3 n h
  have h6 : ("track_" : String).length = 6 := rfl
  have h4 : (".wav" : String).length = 4 := rfl
  omega

theorem trackName_length_lt100 : ∀ n, n < 100 → 1 ≤ n → (trackName n).length = 12 := by
  decide


theorem initState_buf_length : initState.buf.length = BLOCK_SIZE := by
  show (List.replicate BLOCK_SIZE 0).length = BLOCK_SIZE
  exact List.length_replicate _ _

theorem initState_readIntoBuf_secB : readIntoBuf initState.buf secB = secB :=
  readIntoBuf_full _ _ (by rw [secB_length]; exact le_of_eq initState_buf_length)

theorem initState_tn1 : (initState.track_number + 1) % UINT32_MOD = 1 := by
  rw [show initState.track_number = 0 from rfl]
  exact mod32_01

theorem step1B (disk0 : List (String × List Nat))
    (hfresh : hasFile disk0 (trackName 1) = false) :
    step ⟨disk0, [], []⟩ initState secB =
      (⟨disk0 ++ [(trackName 1, wavHeader 0 ++ List.replicate DATA_SIZE 0)],
        [⟨trackName 1, 44 + DATA_SIZE, true⟩], []⟩,
       ⟨secB, trackName 1, 0, 0, BLOCK_SIZE, Int.ofNat 0, 1, 588⟩, true) := by
  rw [step_boundary_first ⟨disk0, [], []⟩ initState secB
    (by rw [secB_length]; exact BLOCK_SIZE_ne_zero) rfl
    (by rw [initState_readIntoBuf_secB]; exact secB_boundary)
    (by
      show hasFile disk0 (trackName ((initState.track_number + 1) % UINT32_MOD)) = false
      rw [initState_tn1]
      exact hfresh)]
  rw [initState_readIntoBuf_secB, initState_tn1, secB_take]
  rw [show initState.offset = 0 from rfl, mod64_B]
  simp only [List.length_replicate, List.nil_append]
  rfl

theorem secB_readIntoBuf_self : readIntoBuf secB secB = secB :=
  readIntoBuf_full _ _ (le_refl _)

theorem mainRun_sys (disk0 : List (String × List Nat)) (input : List (List Nat)) :
    (mainRun disk0 input).sys = (runLoop ⟨disk0, [], []⟩ initState input).1 := rfl

theorem mainRun_exitCode (disk0 : List (String × List Nat)) (input : List (List Nat)) :
    (mainRun disk0 input).exitCode = 0 := rfl

theorem mainRunSpecShortRead_sys (disk0 : List (String × List Nat))
    (input : List (List Nat)) :
    (mainRunSpecShortRead disk0 input).sys
      = (runLoopSpecShortRead ⟨disk0, [], []⟩ initState input).1 := rfl

theorem step2B (disk0 : List (String × List Nat))
    (h1 : hasFile disk0 (trackName 1) = false)
    (h2 : hasFile disk0 (trackName 2) = false) :
    step ⟨disk0 ++ [(trackName 1, wavHeader 0 ++ List.replicate DATA_SIZE 0)],
          [⟨trackName 1, 44 + DATA_SIZE, true⟩], []⟩
        ⟨secB, trackName 1, 0, 0, BLOCK_SIZE, Int.ofNat 0, 1, 588⟩ secB =
      (⟨disk0 ++ [(trackName 1, wavHeader 588 ++ List.replicate DATA_SIZE 0),
            (trackName 2, wavHeader 0 ++ List.replicate DATA_SIZE 0)],
        [⟨trackName 1, 44, false⟩, ⟨trackName 2, 44 + DATA_SIZE, true⟩],
        [LogLine.diag (trackName 1) 0 0 BLOCK_SIZE]⟩,
       ⟨secB, trackName 2, BLOCK_SIZE, BLOCK_SIZE, BLOCK_SIZE + BLOCK_SIZE,
         Int.ofNat 1, 2, 588⟩, true) := by
  rw [step_boundary_next_success
    ⟨disk0 ++ [(trackName 1, wavHeader 0 ++ List.replicate DATA_SIZE 0)],
      [⟨trackName 1, 44 + DATA_SIZE, true⟩], []⟩
    ⟨secB, trackName 1, 0, 0, BLOCK_SIZE, Int.ofNat 0, 1, 588⟩
    secB 0 (trackName 1) (44 + DATA_SIZE)
    (by rw [secB_length]; exact BLOCK_SIZE_ne_zero) rfl rfl
    (by
      show is_track_start (readIntoBuf secB secB) = true
      rw [secB_readIntoBuf_self]
      exact secB_boundary)
    (by
      show hasFile (disk0 ++ [(trackName 1, wavHeader 0 ++ List.replicate DATA_SIZE 0)])
        (trackName ((1 + 1) % UINT32_MOD)) = false
      rw [mod32_12, hasFile_append, h2,
        hasFile_single_ne _ _ _ (trackName_ne 1 2 (by omega))]
      rfl)]
  dsimp only
  rw [secB_readIntoBuf_self, secB_take, mod32_12, durC_0B,
    fsWrite_append_single _ _ _ _ _ h1, fileWrite_header _ _ (wavHeader_length 588),
    drop44_header]
  simp only [List.length_replicate, List.append_assoc, List.nil_append,
    List.set_cons_zero, List.singleton_append, List.cons_append, List.length_cons,
    List.length_nil, Nat.zero_add, mod64_BB]

theorem close2B (disk0 : List (String × List Nat)) (A : List Nat)
    (h2 : hasFile disk0 (trackName 2) = false) (L : List LogLine) :
    close_track ⟨disk0 ++ [(trackName 1, A),
          (trackName 2, wavHeader 0 ++ List.replicate DATA_SIZE 0)],
        [⟨trackName 1, 44, false⟩, ⟨trackName 2, 44 + DATA_SIZE, true⟩], L⟩
      ⟨secB, trackName 2, BLOCK_SIZE, BLOCK_SIZE, BLOCK_SIZE + BLOCK_SIZE,
        Int.ofNat 1, 2, 588⟩ =
    (⟨disk0 ++ [(trackName 1, A),
         (trackName 2, wavHeader 588 ++ List.replicate DATA_SIZE 0)],
      [⟨trackName 1, 44, false⟩, ⟨trackName 2, 44, false⟩],
      L ++ [LogLine.diag (trackName 2) 0 BLOCK_SIZE (BLOCK_SIZE + BLOCK_SIZE)]⟩,
     ⟨secB, trackName 2, BLOCK_SIZE, BLOCK_SIZE + BLOCK_SIZE, BLOCK_SIZE + BLOCK_SIZE,
       Int.ofNat 1, 2, 588⟩) := by
  rw [close_track_open
    ⟨disk0 ++ [(trackName 1, A), (trackName 2, wavHeader 0 ++ List.replicate DATA_SIZE 0)],
      [⟨trackName 1, 44, false⟩, ⟨trackName 2, 44 + DATA_SIZE, true⟩], L⟩
    ⟨secB, trackName 2, BLOCK_SIZE, BLOCK_SIZE, BLOCK_SIZE + BLOCK_SIZE,
      Int.ofNat 1, 2, 588⟩
    1 (trackName 2) (44 + DATA_SIZE) rfl rfl]
  dsimp only
  rw [durC_BB, fsWrite_append_pair _ _ _ _ _ _ _ h2 (trackName_ne 1 2 (by omega)),
    fileWrite_header _ _ (wavHeader_length 588), drop44_header]
  simp only [List.set_cons_succ, List.set_cons_zero]

theorem run2B (disk0 : List (String × List Nat))
    (h1 : hasFile disk0 (trackName 1) = false)
    (h2 : hasFile disk0 (trackName 2) = false) :
    (mainRun disk0 [secB, secB]).sys =
      ⟨disk0 ++ [(trackName 1, wavHeader 588 ++ List.replicate DATA_SIZE 0),
          (trackName 2, wavHeader 588 ++ List.replicate DATA_SIZE 0)],
       [⟨trackName 1, 44, false⟩, ⟨trackName 2, 44, false⟩],
       [LogLine.diag (trackName 1) 0 0 BLOCK_SIZE,
        LogLine.diag (trackName 2) 0 BLOCK_SIZE (BLOCK_SIZE + BLOCK_SIZE)]⟩ := by
  rw [mainRun_sys]
  rw [runLoop_cons_of_true _ _ _ _ (by rw [step1B disk0 h1]), step1B disk0 h1]
  dsimp only
  rw [runLoop_cons_of_true _ _ _ _ (by rw [step2B disk0 h1 h2]), step2B disk0 h1 h2]
  dsimp only
  rw [runLoop_nil, close2B disk0 _ h2 _]
  simp only [List.singleton_append]

theorem runC4 :
    (mainRun [(trackName 1, [])] [secB]).sys
      = ⟨[(trackName 1, [])], [], [LogLine.openErr (trackName 1)]⟩ := by
  rw [mainRun_sys]
  have hstep := step_boundary_first_fail ⟨[(trackName 1, [])], [], []⟩ initState secB
    (by rw [secB_length]; exact BLOCK_SIZE_ne_zero) rfl
    (by rw [initState_readIntoBuf_secB]; exact secB_boundary)
    (by
      show hasFile [(trackName 1, [])]
        (trackName ((initState.track_number + 1) % UINT32_MOD)) = true
      rw [initState_tn1]
      simp [hasFile])
  rw [runLoop_cons_of_false _ _ _ _ (by rw [hstep]), hstep]
  dsimp only
  rw [close_track_invalid _ _ rfl, initState_tn1]
  rfl

theorem runC10 :
    (mainRun [(trackName 2, [])] [secB, secB]).sys =
      ⟨[(trackName 2, []), (trackName 1, wavHeader 588 ++ List.replicate DATA_SIZE 0)],
       [⟨trackName 1, 44, false⟩],
       [LogLine.diag (trackName 1) 0 0 BLOCK_SIZE, LogLine.openErr (trackName 2)]⟩ := by
  have hf1 : hasFile [(trackName 2, [])] (trackName 1) = false :=
    hasFile_single_ne _ _ _ (trackName_ne 2 1 (by omega))
  rw [mainRun_sys]
  rw [runLoop_cons_of_true _ _ _ _ (by rw [step1B _ hf1]), step1B [(trackName 2, [])] hf1]
  have hstep2 := step_boundary_next_fail
    ⟨[(trackName 2, [])] ++ [(trackName 1, wavHeader 0 ++ List.replicate DATA_SIZE 0)],
      [⟨trackName 1, 44 + DATA_SIZE, true⟩], []⟩
    ⟨secB, trackName 1, 0, 0, BLOCK_SIZE, Int.ofNat 0, 1, 588⟩ secB
    0 (trackName 1) (44 + DATA_SIZE)
    (by rw [secB_length]; exact BLOCK_SIZE_ne_zero) rfl rfl
    (by
      show is_track_start (readIntoBuf secB secB) = true
      rw [secB_readIntoBuf_self]
      exact secB_boundary)
    (by
      show hasFile ([(trackName 2, [])]
          ++ [(trackName 1, wavHeader 0 ++ List.replicate DATA_SIZE 0)])
        (trackName ((1 + 1) % UINT32_MOD)) = true
      rw [mod32_12, hasFile_append]
      simp [hasFile])
  rw [runLoop_cons_of_false _ _ _ _ (by rw [hstep2]), hstep2]
  dsimp only
  rw [close_track_invalid _ _ rfl]
  dsimp only
  rw [durC_0B, mod32_12, fsWrite_append_single _ _ _ _ _ hf1,
    fileWrite_header _ _ (wavHeader_length 588), drop44_header]
  simp only [List.set_cons_zero, List.singleton_append, List.nil_append]


theorem getFile_preserved_two (c1 c2 : List Nat) (fp : Nat) (L : List LogLine)
    (S : State) (rest : List (List Nat)) :
    getFile (runLoop ⟨[(trackName 1, c1), (trackName 2, c2)],
        [⟨trackName 1, 44, false⟩, ⟨trackName 2, fp, true⟩], L⟩ S rest).1.disk
      (trackName 1) = some c1 := by
  have hav : avoidsOpen ⟨[(trackName 1, c1), (trackName 2, c2)],
      [⟨trackName 1, 44, false⟩, ⟨trackName 2, fp, true⟩], L⟩ (trackName 1) := by
    intro e he hop
    rcases List.mem_cons.mp he with h | h
    · rw [h] at hop
      exact absurd hop (by simp)
    · rw [List.mem_singleton.mp h]
      exact trackName_ne 2 1 (by omega)
  rw [runLoop_preserves rest _ _ (trackName 1) (by simp [hasFile]) hav]
  simp [getFile]

theorem runLoop_track1_core (mid rest : List (List Nat)) (b b' : List Nat)
    (hb : b.length = BLOCK_SIZE) (hbB : is_track_start b = true)
    (hmid : ∀ c ∈ mid, c.length = BLOCK_SIZE ∧ is_track_start c = false)
    (hb2 : b'.length = BLOCK_SIZE) (hbB2 : is_track_start b' = true)
    (s : State) (hfd : s.track_fd = -1) (htn : s.track_number = 0)
    (hbuf : s.buf.length = BLOCK_SIZE) :
    getFile (runLoop ⟨[], [], []⟩ s (b :: (mid ++ b' :: rest))).1.disk (trackName 1)
      = some (wavHeader ((588 * (mid.length + 1)) % UINT32_MOD)
          ++ (b.take DATA_SIZE ++ payloads mid)) := by
  have hrb : readIntoBuf s.buf b = b := readIntoBuf_full _ _ (by rw [hbuf, hb])
  have hc : b.length ≠ 0 := by rw [hb]; exact BLOCK_SIZE_ne_zero
  have h01 : (s.track_number + 1) % UINT32_MOD = 1 := by rw [htn]; exact mod32_01
  have hstep1 := step_boundary_first ⟨[], [], []⟩ s b hc hfd
    (by rw [hrb]; exact hbB) rfl
  rw [runLoop_cons_of_true _ _ _ _ (by rw [hstep1]), hstep1]
  dsimp only
  rw [hrb, h01, take_data_length b hb]
  simp only [List.nil_append, List.length_nil]
  have hClen : (44 : Nat) + DATA_SIZE = (wavHeader 0 ++ List.take DATA_SIZE b).length := by
    rw [List.length_append, wavHeader_length, take_data_length b hb]
  rw [hClen]
  rw [show ([(trackName 1, wavHeader 0 ++ List.take DATA_SIZE b)] : List (String × List Nat))
      = [] ++ [(trackName 1, wavHeader 0 ++ List.take DATA_SIZE b)] from rfl]
  rw [runLoop_mid mid [] (trackName 1) (wavHeader 0 ++ List.take DATA_SIZE b) []
    ⟨b, trackName 1, s.offset, s.end_offset, (s.offset + BLOCK_SIZE) % UINT64_MOD,
      Int.ofNat 0, 1, 588⟩
    (b' :: rest) rfl rfl (by show b.length = BLOCK_SIZE; exact hb) (mod64_lt _)
    (by show (588 : Nat) < UINT32_MOD; rw [UINT32_MOD]; omega) hmid]
  dsimp only
  have hfold : (List.foldl readIntoBuf b mid).length = BLOCK_SIZE :=
    foldl_readIntoBuf_length mid b hb (fun c hc => (hmid c hc).1)
  have hrb2 : readIntoBuf (List.foldl readIntoBuf b mid) b' = b' :=
    readIntoBuf_full _ _ (by rw [hfold, hb2])
  have hc2 : b'.length ≠ 0 := by rw [hb2]; exact BLOCK_SIZE_ne_zero
  have hstep2 := step_boundary_next_success
    ⟨[] ++ [(trackName 1, wavHeader 0 ++ List.take DATA_SIZE b ++ payloads mid)],
      [⟨trackName 1,
        (wavHeader 0 ++ List.take DATA_SIZE b).length + DATA_SIZE * mid.length, true⟩], []⟩
    ⟨List.foldl readIntoBuf b mid, trackName 1, s.offset, s.end_offset,
      ((s.offset + BLOCK_SIZE) % UINT64_MOD + BLOCK_SIZE * mid.length) % UINT64_MOD,
      Int.ofNat 0, 1, (588 + 588 * mid.length) % UINT32_MOD⟩
    b' 0 (trackName 1)
    ((wavHeader 0 ++ List.take DATA_SIZE b).length + DATA_SIZE * mid.length)
    hc2 rfl rfl
    (by
      show is_track_start (readIntoBuf (List.foldl readIntoBuf b mid) b') = true
      rw [hrb2]
      exact hbB2)
    (by
      show hasFile ([] ++ [(trackName 1, wavHeader 0 ++ List.take DATA_SIZE b ++ payloads mid)])
        (trackName ((1 + 1) % UINT32_MOD)) = false
      rw [mod32_12, List.nil_append]
      exact hasFile_single_ne _ _ _ (trackName_ne 1 2 (by omega)))
  rw [runLoop_cons_of_true _ _ _ _ (by rw [hstep2]), hstep2]
  dsimp only
  rw [hrb2, mod32_12, take_data_length b' hb2]
  rw [fsWrite_append_single [] (trackName 1)
    (wavHeader 0 ++ List.take DATA_SIZE b ++ payloads mid) 0
    (wavHeader ((588 + 588 * mid.length) % UINT32_MOD)) rfl]
  rw [fileWrite_header _ _ (wavHeader_length _)]
  rw [show List.drop 44 (wavHeader 0 ++ List.take DATA_SIZE b ++ payloads mid)
      = List.take DATA_SIZE b ++ payloads mid from by
    rw [List.append_assoc]
    exact drop44_header 0 _]
  rw [show (588 + 588 * mid.length) % UINT32_MOD = 588 * (mid.length + 1) % UINT32_MOD from
    by rw [show 588 + 588 * mid.length = 588 * (mid.length + 1) from by ring]]
  simp only [List.set_cons_zero, List.nil_append, List.singleton_append, List.cons_append]
  exact getFile_preserved_two _ _ _ _ _ rest


theorem sysWrite_df (sys1 sys2 : Sys) (fd : Int) (data : List Nat)
    (hd : sys1.disk = sys2.disk) (hf : sys1.fds = sys2.fds) :
    (sysWrite sys1 fd data).disk = (sysWrite sys2 fd data).disk ∧
    (sysWrite sys1 fd data).fds = (sysWrite sys2 fd data).fds := by
  obtain ⟨d1, f1, l1⟩ := sys1
  obtain ⟨d2, f2, l2⟩ := sys2
  dsimp only at hd hf
  subst hd
  subst hf
  by_cases hlt : fd < 0
  · rw [sysWrite, sysWrite, if_pos hlt, if_pos hlt]
    exact ⟨rfl, rfl⟩
  · rw [sysWrite, sysWrite, if_neg hlt, if_neg hlt]
    cases hget : f1.get? fd.toNat with
    | none => exact ⟨rfl, rfl⟩
    | some e =>
      dsimp only
      by_cases hop : e.isOpen = true
      · rw [if_pos hop, if_pos hop]
        exact ⟨rfl, rfl⟩
      · rw [if_neg hop, if_neg hop]
        exact ⟨rfl, rfl⟩

theorem sysSeek0_df (sys1 sys2 : Sys) (fd : Int)
    (hd : sys1.disk = sys2.disk) (hf : sys1.fds = sys2.fds) :
    (sysSeek0 sys1 fd).disk = (sysSeek0 sys2 fd).disk ∧
    (sysSeek0 sys1 fd).fds = (sysSeek0 sys2 fd).fds := by
  obtain ⟨d1, f1, l1⟩ := sys1
  obtain ⟨d2, f2, l2⟩ := sys2
  dsimp only at hd hf
  subst hd
  subst hf
  by_cases hlt : fd < 0
  · rw [sysSeek0, sysSeek0, if_pos hlt, if_pos hlt]
    exact ⟨rfl, rfl⟩
  · rw [sysSeek0, sysSeek0, if_neg hlt, if_neg hlt]
    cases hget : f1.get? fd.toNat with
    | none => exact ⟨rfl, rfl⟩
    | some e =>
      dsimp only
      by_cases hop : e.isOpen = true
      · rw [if_pos hop, if_pos hop]
        exact ⟨rfl, rfl⟩
      · rw [if_neg hop, if_neg hop]
        exact ⟨rfl, rfl⟩

theorem sysClose_df (sys1 sys2 : Sys) (fd : Int)
    (hd : sys1.disk = sys2.disk) (hf : sys1.fds = sys2.fds) :
    (sysClose sys1 fd).disk = (sysClose sys2 fd).disk ∧
    (sysClose sys1 fd).fds = (sysClose sys2 fd).fds := by
  obtain ⟨d1, f1, l1⟩ := sys1
  obtain ⟨d2, f2, l2⟩ := sys2
  dsimp only at hd hf
  subst hd
  subst hf
  by_cases hlt : fd < 0
  · rw [sysClose, sysClose, if_pos hlt, if_pos hlt]
    exact ⟨rfl, rfl⟩
  · rw [sysClose, sysClose, if_neg hlt, if_neg hlt]
    cases hget : f1.get? fd.toNat with
    | none => exact ⟨rfl, rfl⟩
    | some e => exact ⟨rfl, rfl⟩

theorem write_wav_header_df (sys1 sys2 : Sys) (fd : Int) (ns : Nat)
    (hd : sys1.disk = sys2.disk) (hf : sys1.fds = sys2.fds) :
    (write_wav_header sys1 fd ns).disk = (write_wav_header sys2 fd ns).disk ∧
    (write_wav_header sys1 fd ns).fds = (write_wav_header sys2 fd ns).fds := by
  rw [write_wav_header, write_wav_header]
  obtain ⟨h1, h2⟩ := sysSeek0_df sys1 sys2 fd hd hf
  exact sysWrite_df _ _ fd (wavHeader ns) h1 h2

theorem close_track_fst_valid (sys : Sys) (s : State) (h : ¬s.track_fd = -1) :
    (close_track sys s).1 = sysClose (write_wav_header
      { sys with log := sys.log ++ [LogLine.diag s.output_file_name
          (durC s.start_offset s.offset) s.start_offset s.offset] }
      s.track_fd s.num_samples) s.track_fd := by
  rw [close_track, if_neg h]

theorem close_track_df (sys1 sys2 : Sys) (s1 s2 : State)
    (hd : sys1.disk = sys2.disk) (hf : sys1.fds = sys2.fds)
    (hfd : s1.track_fd = s2.track_fd) (hns : s1.num_samples = s2.num_samples) :
    (close_track sys1 s1).1.disk = (close_track sys2 s2).1.disk ∧
    (close_track sys1 s1).1.fds = (close_track sys2 s2).1.fds := by
  by_cases h1 : s1.track_fd = -1
  · have h2 : s2.track_fd = -1 := by rw [← hfd]; exact h1
    rw [close_track_invalid sys1 s1 h1, close_track_invalid sys2 s2 h2]
    exact ⟨hd, hf⟩
  · have h2 : ¬s2.track_fd = -1 := by rw [← hfd]; exact h1
    rw [close_track_fst_valid sys1 s1 h1, close_track_fst_valid sys2 s2 h2]
    rw [hfd, hns]
    obtain ⟨hw1, hw2⟩ := write_wav_header_df
      { sys1 with log := sys1.log ++ [LogLine.diag s1.output_file_name
          (durC s1.start_offset s1.offset) s1.start_offset s1.offset] }
      { sys2 with log := sys2.log ++ [LogLine.diag s2.output_file_name
          (durC s2.start_offset s2.offset) s2.start_offset s2.offset] }
      s2.track_fd s2.num_samples hd hf
    exact sysClose_df _ _ s2.track_fd hw1 hw2

theorem update_track_fst_valid (sys : Sys) (s : State) (h : ¬s.track_fd = -1) :
    (update_track sys s).1 = sysWrite sys s.track_fd (s.buf.take DATA_SIZE) := by
  rw [update_track, if_neg h]

theorem update_track_snd_num_samples (sys : Sys) (s : State) :
    (update_track sys s).2.num_samples
      = if s.track_fd = -1 then s.num_samples
        else (s.num_samples + 588) % UINT32_MOD := by
  rw [update_track]
  split
  · rfl
  · norm_num [DATA_SIZE]

theorem update_track_df (sys1 sys2 : Sys) (s1 s2 : State)
    (hd : sys1.disk = sys2.disk) (hf : sys1.fds = sys2.fds)
    (hbuf : s1.buf = s2.buf) (hfd : s1.track_fd = s2.track_fd) :
    (update_track sys1 s1).1.disk = (update_track sys2 s2).1.disk ∧
    (update_track sys1 s1).1.fds = (update_track sys2 s2).1.fds := by
  by_cases h1 : s1.track_fd = -1
  · have h2 : s2.track_fd = -1 := by rw [← hfd]; exact h1
    rw [update_track_invalid sys1 s1 h1, update_track_invalid sys2 s2 h2]
    exact ⟨hd, hf⟩
  · have h2 : ¬s2.track_fd = -1 := by rw [← hfd]; exact h1
    rw [update_track_fst_valid sys1 s1 h1, update_track_fst_valid sys2 s2 h2,
      hfd, hbuf]
    exact sysWrite_df sys1 sys2 _ _ hd hf

theorem step_df (sys1 sys2 : Sys) (s1 s2 : State) (c : List Nat)
    (hd : sys1.disk = sys2.disk) (hf : sys1.fds = sys2.fds)
    (hbuf : s1.buf = s2.buf) (hfd : s1.track_fd = s2.track_fd)
    (htn : s1.track_number = s2.track_number) (hns : s1.num_samples = s2.num_samples) :
    (step sys1 s1 c).1.disk = (step sys2 s2 c).1.disk ∧
    (step sys1 s1 c).1.fds = (step sys2 s2 c).1.fds ∧
    (step sys1 s1 c).2.2 = (step sys2 s2 c).2.2 ∧
    (step sys1 s1 c).2.1.buf = (step sys2 s2 c).2.1.buf ∧
    (step sys1 s1 c).2.1.track_fd = (step sys2 s2 c).2.1.track_fd ∧
    (step sys1 s1 c).2.1.track_number = (step sys2 s2 c).2.1.track_number ∧
    (step sys1 s1 c).2.1.num_samples = (step sys2 s2 c).2.1.num_samples := by
  by_cases hc : c.length = 0
  · rw [List.length_eq_zero] at hc
    subst hc
    rw [step_nil, step_nil]
    exact ⟨hd, hf, rfl, hbuf, hfd, htn, hns⟩
  · have hrb : readIntoBuf s2.buf c = readIntoBuf s1.buf c := by rw [hbuf]
    by_cases hbd : is_track_start (readIntoBuf s1.buf c) = true
    · by_cases hh : hasFile sys1.disk (trackName ((s1.track_number + 1) % UINT32_MOD)) = true
      · have hh2 : hasFile sys2.disk (trackName ((s2.track_number + 1) % UINT32_MOD))
            = true := by
          rw [← hd, ← htn]
          exact hh
        rw [step_boundary_fail_any sys1 s1 c hc hbd hh,
          step_boundary_fail_any sys2 s2 c hc (by rw [hrb]; exact hbd) hh2]
        dsimp only
        obtain ⟨hcd, hcf⟩ := close_track_df sys1 sys2
          { s1 with
            buf := readIntoBuf s1.buf c
            track_number := (s1.track_number + 1) % UINT32_MOD }
          { s2 with
            buf := readIntoBuf s2.buf c
            track_number := (s2.track_number + 1) % UINT32_MOD }
          hd hf hfd hns
        refine ⟨hcd, hcf, rfl, ?_, rfl, ?_, rfl⟩
        · rw [close_track_snd_buf, close_track_snd_buf]
          exact hrb.symm
        · rw [close_track_snd_track_number, close_track_snd_track_number]
          show (s1.track_number + 1) % UINT32_MOD = (s2.track_number + 1) % UINT32_MOD
          rw [htn]
      · have hhF : hasFile sys1.disk (trackName ((s1.track_number + 1) % UINT32_MOD))
            = false := by
          rw [Bool.not_eq_true] at hh
          exact hh
        have hh2 : hasFile sys2.disk (trackName ((s2.track_number + 1) % UINT32_MOD))
            = false := by
          rw [← hd, ← htn]
          exact hhF
        rw [step_boundary_success_any sys1 s1 c hc hbd hhF,
          step_boundary_success_any sys2 s2 c hc (by rw [hrb]; exact hbd) hh2]
        dsimp only
        obtain ⟨hcd, hcf⟩ := close_track_df sys1 sys2
          { s1 with
            buf := readIntoBuf s1.buf c
            track_number := (s1.track_number + 1) % UINT32_MOD }
          { s2 with
            buf := readIntoBuf s2.buf c
            track_number := (s2.track_number + 1) % UINT32_MOD }
          hd hf hfd hns
        refine ⟨?_, ?_, rfl, ?_, ?_, ?_, rfl⟩
        · rw [hcd, hrb, htn]
        · rw [hcf, hrb, htn]
        · rw [close_track_snd_buf, close_track_snd_buf]
          exact hrb.symm
        · rw [hcf]
        · rw [close_track_snd_track_number, close_track_snd_track_number]
          show (s1.track_number + 1) % UINT32_MOD = (s2.track_number + 1) % UINT32_MOD
          rw [htn]
    · have hbd2 : is_track_start (readIntoBuf s1.buf c) = false := by
        rw [Bool.not_eq_true] at hbd
        exact hbd
      rw [step_nonboundary_any sys1 s1 c hc hbd2,
        step_nonboundary_any sys2 s2 c hc (by rw [hrb]; exact hbd2)]
      dsimp only
      obtain ⟨hud, huf⟩ := update_track_df sys1 sys2
        { s1 with buf := readIntoBuf s1.buf c }
        { s2 with buf := readIntoBuf s2.buf c }
        hd hf hrb.symm hfd
      refine ⟨hud, huf, rfl, ?_, ?_, ?_, ?_⟩
      · rw [(update_track_snd_fields _ _).1, (update_track_snd_fields _ _).1]
        exact hrb.symm
      · rw [(update_track_snd_fields _ _).2.2.1, (update_track_snd_fields _ _).2.2.1]
        exact hfd
      · rw [(update_track_snd_fields _ _).2.2.2.1, (update_track_snd_fields _ _).2.2.2.1]
        exact htn
      · rw [update_track_snd_num_samples, update_track_snd_num_samples]
        show (if s1.track_fd = -1 then s1.num_samples
            else (s1.num_samples + 588) % UINT32_MOD)
          = if s2.track_fd = -1 then s2.num_samples
            else (s2.num_samples + 588) % UINT32_MOD
        rw [hfd, hns]

theorem runLoop_df (input : List (List Nat)) :
    ∀ (sys1 sys2 : Sys) (s1 s2 : State),
      sys1.disk = sys2.disk → sys1.fds = sys2.fds →
      s1.buf = s2.buf → s1.track_fd = s2.track_fd →
      s1.track_number = s2.track_number → s1.num_samples = s2.num_samples →
      (runLoop sys1 s1 input).1.disk = (runLoop sys2 s2 input).1.disk ∧
      (runLoop sys1 s1 input).1.fds = (runLoop sys2 s2 input).1.fds := by
  induction input with
  | nil =>
    intro sys1 sys2 s1 s2 hd hf hbuf hfd htn hns
    rw [runLoop_nil, runLoop_nil]
    exact close_track_df sys1 sys2 s1 s2 hd hf hfd hns
  | cons c rest ih =>
    intro sys1 sys2 s1 s2 hd hf hbuf hfd htn hns
    obtain ⟨d, f, g, bu, fd, tn, ns⟩ := step_df sys1 sys2 s1 s2 c hd hf hbuf hfd htn hns
    rw [runLoop_cons_eq, runLoop_cons_eq]
    by_cases hg : (step sys2 s2 c).2.2 = true
    · rw [if_pos hg, if_pos (g.trans hg)]
      exact ih _ _ _ _ d f bu fd tn ns
    · rw [if_neg hg, if_neg (show ¬(step sys1 s1 c).2.2 = true from by rw [g]; exact hg)]
      exact close_track_df _ _ _ _ d f fd ns


theorem readLe32_prefix_4 (l X : List Nat) (h : l.length = 44) :
    readLe32 (l ++ X) 4 = readLe32 l 4 := by
  simp only [readLe32]
  rw [List.getD_append _ _ _ _ (by omega), List.getD_append _ _ _ _ (by omega),
    List.getD_append _ _ _ _ (by omega), List.getD_append _ _ _ _ (by omega)]

theorem countB_one : countB [secB] = 1 := by
  rw [countB_cons_true secB [] secB_boundary]
  rfl

/-- Claim C1 (amended): only a read that yields zero bytes is treated as
end-of-stream; when every read delivers one full sector the run agrees with
the spec's short-read-is-end-of-stream model. -/
theorem claim_C1 :
    (∀ (sys : Sys) (s : State) (rest : List (List Nat)),
      runLoop sys s ([] :: rest) = close_track sys s) ∧
    (∀ (disk0 : List (String × List Nat)) (input : List (List Nat)),
      (∀ c ∈ input, c.length = BLOCK_SIZE) →
      mainRunSpecShortRead disk0 input = mainRun disk0 input) := by
  constructor
  · intro sys s rest
    rw [runLoop_cons_of_false sys s [] rest (by rw [step_nil]), step_nil]
  · intro disk0 input hin
    show (⟨(runLoopSpecShortRead ⟨disk0, [], []⟩ initState input).1,
        (runLoopSpecShortRead ⟨disk0, [], []⟩ initState input).2, 0⟩ : RunResult)
      = ⟨(runLoop ⟨disk0, [], []⟩ initState input).1,
        (runLoop ⟨disk0, [], []⟩ initState input).2, 0⟩
    rw [runLoopSpecShortRead_eq_of_full input hin]

/-- Claim C1 witness instance. -/
theorem claim_C1_witness :
    runLoop ⟨[], [], []⟩ initState ([] :: []) = close_track ⟨[], [], []⟩ initState ∧
    mainRunSpecShortRead [] [secN] = mainRun [] [secN] :=
  ⟨claim_C1.1 ⟨[], [], []⟩ initState [],
   claim_C1.2 [] [secN]
     (fun c hc => by rw [List.mem_singleton.mp hc]; exact secN_length)⟩

/-- Claim C1 counterexample: a 1-byte read is not treated as end-of-stream;
the partially overwritten buffer is classified as a boundary sector and opens
track 2, which the spec's model never creates. -/
theorem claim_C1_counterexample :
    hasFile (mainRun [] [secB, [7]]).sys.disk (trackName 2) = true ∧
    hasFile (mainRunSpecShortRead [] [secB, [7]]).sys.disk (trackName 2) = false ∧
    mainRun [] [secB, [7]] ≠ mainRunSpecShortRead [] [secB, [7]] := by
  have h7 : ([7] : List Nat).length ≠ 0 := by norm_num
  have hfresh2 : hasFile
      ([] ++ [(trackName 1, wavHeader 0 ++ List.replicate DATA_SIZE 0)])
      (trackName ((1 + 1) % UINT32_MOD)) = false := by
    rw [mod32_12, List.nil_append]
    exact hasFile_single_ne _ _ _ (trackName_ne 1 2 (by omega))
  have hstep2 := step_boundary_next_success
    ⟨[] ++ [(trackName 1, wavHeader 0 ++ List.replicate DATA_SIZE 0)],
      [⟨trackName 1, 44 + DATA_SIZE, true⟩], []⟩
    ⟨secB, trackName 1, 0, 0, BLOCK_SIZE, Int.ofNat 0, 1, 588⟩ [7]
    0 (trackName 1) (44 + DATA_SIZE) h7 rfl rfl secB_drop_one_boundary hfresh2
  have hcode : hasFile (mainRun [] [secB, [7]]).sys.disk (trackName 2) = true := by
    rw [mainRun_sys]
    rw [runLoop_cons_of_true _ _ _ _ (by rw [step1B [] rfl]), step1B [] rfl]
    rw [runLoop_cons_of_true _ _ _ _ (by rw [hstep2]), hstep2]
    dsimp only
    rw [runLoop_nil, close_track_hasFile]
    dsimp only
    rw [mod32_12, hasFile_append]
    simp [hasFile]
  have hspec : hasFile (mainRunSpecShortRead [] [secB, [7]]).sys.disk
      (trackName 2) = false := by
    rw [mainRunSpecShortRead_sys]
    rw [runLoopSpecShortRead_cons_long _ _ _ _
      (by rw [secB_length]; exact lt_irrefl _)]
    rw [step1B [] rfl]
    dsimp only
    rw [if_pos rfl]
    rw [runLoopSpecShortRead_cons_short _ _ _ _
      (by show (1 : Nat) < BLOCK_SIZE; rw [BLOCK_SIZE, DATA_SIZE, SUBCODE_SIZE]; omega)]
    rw [close_track_open
      ⟨[] ++ [(trackName 1, wavHeader 0 ++ List.replicate DATA_SIZE 0)],
        [⟨trackName 1, 44 + DATA_SIZE, true⟩], []⟩
      ⟨secB, trackName 1, 0, 0, BLOCK_SIZE, Int.ofNat 0, 1, 588⟩
      0 (trackName 1) (44 + DATA_SIZE) rfl rfl]
    dsimp only
    rw [hasFile_fsWrite, List.nil_append]
    exact hasFile_single_ne _ _ _ (trackName_ne 1 2 (by omega))
  refine ⟨hcode, hspec, fun he => ?_⟩
  rw [he] at hcode
  rw [hspec] at hcode
  exact Bool.false_ne_true hcode

/-- Claim C2 (amended): the first track's file receives exactly the payload
regions of its sectors, and the finalized subchunk2 field equals
(m - k) times the payload length reduced modulo 2^32. -/
theorem claim_C2 (pre mid rest : List (List Nat)) (b b' : List Nat)
    (hpre : ∀ c ∈ pre, c.length = BLOCK_SIZE ∧ is_track_start c = false)
    (hb : b.length = BLOCK_SIZE) (hbB : is_track_start b = true)
    (hmid : ∀ c ∈ mid, c.length = BLOCK_SIZE ∧ is_track_start c = false)
    (hb2 : b'.length = BLOCK_SIZE) (hbB2 : is_track_start b' = true) :
    ∃ content,
      getFile (mainRun [] (pre ++ b :: (mid ++ b' :: rest))).sys.disk (trackName 1)
        = some content ∧
      content.drop 44 = payloads (b :: mid) ∧
      readLe32 content 40 = (mid.length + 1) * DATA_SIZE % UINT32_MOD := by
  refine ⟨wavHeader ((588 * (mid.length + 1)) % UINT32_MOD)
      ++ (List.take DATA_SIZE b ++ payloads mid), ?_, ?_, ?_⟩
  · rw [mainRun_sys]
    rw [runLoop_skip pre ⟨[], [], []⟩ initState (b :: (mid ++ b' :: rest)) rfl
      initState_buf_length
      (by rw [show initState.offset = 0 from rfl, UINT64_MOD]; omega) hpre]
    exact runLoop_track1_core mid rest b b' hb hbB hmid hb2 hbB2 _ rfl rfl
      (foldl_readIntoBuf_length pre initState.buf initState_buf_length
        (fun c hc => (hpre c hc).1))
  · rw [drop44_header, payloads_cons]
  · rw [readLe32_prefix_40 _ _ (wavHeader_length _), readLe32_wavHeader_40,
      Nat.mod_mul_mod]
    congr 1
    rw [DATA_SIZE]
    ring

/-- Claim C2 witness instance. -/
theorem claim_C2_witness :
    ∃ content, getFile (mainRun [] [secB, secB]).sys.disk (trackName 1) = some content ∧
      content.drop 44 = payloads [secB] ∧
      readLe32 content 40 = (0 + 1) * DATA_SIZE % UINT32_MOD := by
  have h := claim_C2 [] [] [] secB secB (fun c hc => absurd hc (List.not_mem_nil c))
    secB_length secB_boundary (fun c hc => absurd hc (List.not_mem_nil c))
    secB_length secB_boundary
  simp only [List.nil_append, List.length_nil] at h
  exact h

/-- Claim C2 counterexample: with 1826300 sectors in the first track the
finalized subchunk2 field holds 490304, the true byte count 4295457600
reduced modulo 2^32, not the byte count itself. -/
theorem claim_C2_counterexample :
    ∃ content,
      getFile (mainRun [] (secB :: (List.replicate 1826299 secN ++ [secB]))).sys.disk
          (trackName 1) = some content ∧
      readLe32 content 40 = 490304 ∧
      (List.replicate 1826299 secN).length + 1 = 1826300 ∧
      (1826300 : Nat) * DATA_SIZE = 4295457600 ∧ (490304 : Nat) ≠ 4295457600 := by
  refine ⟨wavHeader ((588 * ((List.replicate 1826299 secN).length + 1)) % UINT32_MOD)
      ++ (List.take DATA_SIZE secB ++ payloads (List.replicate 1826299 secN)),
    ?_, ?_, ?_, ?_, ?_⟩
  · rw [mainRun_sys]
    exact runLoop_track1_core (List.replicate 1826299 secN) [] secB secB
      secB_length secB_boundary
      (fun c hc => by
        rw [List.eq_of_mem_replicate hc]
        exact ⟨secN_length, secN_not_boundary⟩)
      secB_length secB_boundary initState rfl rfl initState_buf_length
  · rw [readLe32_prefix_40 _ _ (wavHeader_length _), readLe32_wavHeader_40,
      Nat.mod_mul_mod, List.length_replicate, UINT32_MOD]
  · rw [List.length_replicate]
  · rw [DATA_SIZE]
  · omega

/-- Claim C3 (amended): two boundary sectors produce two files, each holding
the 2352 payload bytes of its own sector, with subchunk2 size 2352 and chunk
size 2388. -/
theorem claim_C3 :
    (mainRun [] [secB, secB]).sys.disk
      = [(trackName 1, wavHeader 588 ++ List.replicate DATA_SIZE 0),
         (trackName 2, wavHeader 588 ++ List.replicate DATA_SIZE 0)] ∧
    readLe32 (wavHeader 588) 40 = 2352 ∧ readLe32 (wavHeader 588) 4 = 2388 ∧
    (wavHeader 588 ++ List.replicate DATA_SIZE 0).length = 44 + DATA_SIZE := by
  refine ⟨?_, ?_, ?_, ?_⟩
  · rw [run2B [] rfl rfl]
    dsimp only
    rw [List.nil_append]
  · rw [readLe32_wavHeader_40, UINT32_MOD]
  · rw [readLe32_wavHeader_4, UINT32_MOD]
  · rw [List.length_append, wavHeader_length, List.length_replicate]

/-- Claim C3 counterexample: the run on two boundary sectors gives
track_01.wav a 2352-byte payload and header fields 2352 and 2388, not the
claimed 0 payload bytes, subchunk2 size 0 and chunk size 36. -/
theorem claim_C3_counterexample :
    ∃ c1, getFile (mainRun [] [secB, secB]).sys.disk (trackName 1) = some c1 ∧
      readLe32 c1 40 = 2352 ∧ readLe32 c1 4 = 2388 ∧
      (c1.drop 44).length = DATA_SIZE ∧
      readLe32 c1 40 ≠ 0 ∧ readLe32 c1 4 ≠ 36 ∧ (c1.drop 44).length ≠ 0 := by
  have hle40 : readLe32 (wavHeader 588 ++ List.replicate DATA_SIZE 0) 40 = 2352 := by
    rw [readLe32_prefix_40 _ _ (wavHeader_length _), readLe32_wavHeader_40, UINT32_MOD]
  have hle4 : readLe32 (wavHeader 588 ++ List.replicate DATA_SIZE 0) 4 = 2388 := by
    rw [readLe32_prefix_4 _ _ (wavHeader_length _), readLe32_wavHeader_4, UINT32_MOD]
  have hdl : ((wavHeader 588 ++ List.replicate DATA_SIZE 0).drop 44).length
      = DATA_SIZE := by
    rw [drop44_header, List.length_replicate]
  refine ⟨wavHeader 588 ++ List.replicate DATA_SIZE 0, ?_, hle40, hle4, hdl,
    ?_, ?_, ?_⟩
  · rw [run2B [] rfl rfl]
    dsimp only
    rw [List.nil_append]
    simp [getFile]
  · rw [hle40]
    omega
  · rw [hle4]
    omega
  · rw [hdl, DATA_SIZE]
    omega

/-- Claim C4 (amended): main always returns 0, so the process signals success
even in runs where a track file fails to open; the failure is only reported
on stderr. -/
theorem claim_C4 :
    (∀ (disk0 : List (String × List Nat)) (input : List (List Nat)),
      (mainRun disk0 input).exitCode = 0) ∧
    LogLine.openErr (trackName 1) ∈ (mainRun [(trackName 1, [])] [secB]).sys.log := by
  refine ⟨fun disk0 input => rfl, ?_⟩
  rw [runC4]
  exact List.mem_singleton.mpr rfl

/-- Claim C4 counterexample: a run whose only track fails to open still exits
with code 0, not a failure indication. -/
theorem claim_C4_counterexample :
    LogLine.openErr (trackName 1) ∈ (mainRun [(trackName 1, [])] [secB]).sys.log ∧
    (mainRun [(trackName 1, [])] [secB]).exitCode = 0 ∧
    ¬(mainRun [(trackName 1, [])] [secB]).exitCode ≠ 0 := by
  refine ⟨?_, rfl, fun h => h rfl⟩
  rw [runC4]
  exact List.mem_singleton.mpr rfl

theorem getFile_cons_ne (a n : String) (x : List Nat) (t : List (String × List Nat))
    (h : a ≠ n) : getFile ((a, x) :: t) n = getFile t n := by
  simp [getFile, h]

theorem getFile_cons_self (n : String) (x : List Nat) (t : List (String × List Nat)) :
    getFile ((n, x) :: t) n = some x := by
  simp [getFile]

/-- Claim C5: creation is exclusive and a collision aborts the run.  First, a
file that exists on disk before the run keeps its exact contents through the
whole run, whatever the input stream is.  Second, when the track file of a
boundary sector already exists, the loop stops there: the rest of the stream
is never processed, the run behaving as if the stream ended at the colliding
sector.  Third, at such a collision every file other than the one track being
finalized — in particular every track file finalized earlier in the same run —
keeps its exact contents to the end of the run.  Fourth, in the concrete
collision run over a pre-existing `track_02.wav`, the finalized `track_01.wav`
remains on disk with its full finalized contents and the pre-existing
`track_02.wav` still holds its original (empty) contents. -/
theorem claim_C5 :
    (∀ (disk0 : List (String × List Nat)) (input : List (List Nat)) (n : String),
      hasFile disk0 n = true →
      getFile (mainRun disk0 input).sys.disk n = getFile disk0 n) ∧
    (∀ (sys : Sys) (s : State) (c : List Nat) (rest : List (List Nat)),
      c.length ≠ 0 → is_track_start (readIntoBuf s.buf c) = true →
      hasFile sys.disk (trackName ((s.track_number + 1) % UINT32_MOD)) = true →
      runLoop sys s (c :: rest) = runLoop sys s [c]) ∧
    (∀ (sys : Sys) (s : State) (c : List Nat) (rest : List (List Nat))
       (f : Nat) (n : String) (p : Nat) (m : String),
      c.length ≠ 0 → s.track_fd = Int.ofNat f →
      sys.fds.get? f = some ⟨n, p, true⟩ →
      is_track_start (readIntoBuf s.buf c) = true →
      hasFile sys.disk (trackName ((s.track_number + 1) % UINT32_MOD)) = true →
      m ≠ n →
      getFile (runLoop sys s (c :: rest)).1.disk m = getFile sys.disk m) ∧
    (getFile (mainRun [(trackName 2, [])] [secB, secB]).sys.disk (trackName 1)
        = some (wavHeader 588 ++ List.replicate DATA_SIZE 0) ∧
      getFile (mainRun [(trackName 2, [])] [secB, secB]).sys.disk (trackName 2)
        = some []) := by
  refine ⟨?_, ?_, ?_, ?_, ?_⟩
  · intro disk0 input n h
    rw [mainRun_sys]
    exact runLoop_preserves input ⟨disk0, [], []⟩ initState n h
      (fun e he _ => absurd he (List.not_mem_nil e))
  · intro sys s c rest hc hbd hstale
    rw [runLoop_cons_of_false _ _ _ _
        (by rw [step_boundary_fail_any sys s c hc hbd hstale]),
      runLoop_cons_of_false _ _ _ _
        (by rw [step_boundary_fail_any sys s c hc hbd hstale])]
  · intro sys s c rest f n p m hc hfd he hbd hstale hm
    rw [runLoop_cons_of_false _ _ _ _
      (by rw [step_boundary_next_fail sys s c f n p hc hfd he hbd hstale])]
    rw [step_boundary_next_fail sys s c f n p hc hfd he hbd hstale]
    dsimp only
    rw [close_track_invalid _ _ rfl]
    dsimp only
    exact getFile_fsWrite_ne sys.disk n m 0 (wavHeader s.num_samples) hm
  · rw [runC10]
    dsimp only
    rw [getFile_cons_ne _ _ _ _ (trackName_ne 2 1 (by omega)), getFile_cons_self]
  · rw [runC10]
    dsimp only
    rw [getFile_cons_self]

/-- Claim C5 witness instance. -/
theorem claim_C5_witness :
    hasFile [(trackName 1, [5])] (trackName 1) = true ∧
    getFile (mainRun [(trackName 1, [5])] [secB]).sys.disk (trackName 1)
      = getFile [(trackName 1, [5])] (trackName 1) ∧
    runLoop ⟨[(trackName 1, [])], [], []⟩ initState (secB :: [secN])
      = runLoop ⟨[(trackName 1, [])], [], []⟩ initState [secB] ∧
    getFile (runLoop
        ⟨[(trackName 2, []), (trackName 1, wavHeader 0 ++ List.replicate DATA_SIZE 0)],
          [⟨trackName 1, 44 + DATA_SIZE, true⟩], []⟩
        ⟨secB, trackName 1, 0, 0, BLOCK_SIZE, Int.ofNat 0, 1, 588⟩
        (secB :: [secN])).1.disk (trackName 2)
      = getFile
        [(trackName 2, []), (trackName 1, wavHeader 0 ++ List.replicate DATA_SIZE 0)]
        (trackName 2) :=
  ⟨by simp [hasFile],
   claim_C5.1 _ _ _ (by simp [hasFile]),
   claim_C5.2.1 ⟨[(trackName 1, [])], [], []⟩ initState secB [secN]
     (by rw [secB_length]; exact BLOCK_SIZE_ne_zero)
     (by rw [initState_readIntoBuf_secB]; exact secB_boundary)
     (by
       show hasFile [(trackName 1, [])]
         (trackName ((initState.track_number + 1) % UINT32_MOD)) = true
       rw [initState_tn1]
       simp [hasFile]),
   claim_C5.2.2.1
     ⟨[(trackName 2, []), (trackName 1, wavHeader 0 ++ List.replicate DATA_SIZE 0)],
       [⟨trackName 1, 44 + DATA_SIZE, true⟩], []⟩
     ⟨secB, trackName 1, 0, 0, BLOCK_SIZE, Int.ofNat 0, 1, 588⟩
     secB [secN] 0 (trackName 1) (44 + DATA_SIZE) (trackName 2)
     (by rw [secB_length]; exact BLOCK_SIZE_ne_zero) rfl rfl
     (by
       show is_track_start (readIntoBuf secB secB) = true
       rw [secB_readIntoBuf_self]
       exact secB_boundary)
     (by
       show hasFile
         [(trackName 2, []), (trackName 1, wavHeader 0 ++ List.replicate DATA_SIZE 0)]
         (trackName ((1 + 1) % UINT32_MOD)) = true
       rw [mod32_12]
       simp [hasFile])
     (trackName_ne 2 1 (by omega))⟩

/-- Claim C6 (amended): every diagnostic line of a run over full sectors
reports the truncated whole-second duration and the start and end offsets in
bytes, BLOCK_SIZE times the sector index. -/
theorem claim_C6 (disk0 : List (String × List Nat)) (input : List (List Nat))
    (total : Nat) (hin : ∀ c ∈ input, c.length = BLOCK_SIZE)
    (hlen : input.length ≤ total)
    (hb : BLOCK_SIZE * DATA_SIZE * total < UINT64_MOD) :
    ∀ nm du st en, LogLine.diag nm du st en ∈ (mainRun disk0 input).sys.log →
      DiagOk total du st en := by
  intro nm du st en hmem
  rw [mainRun_sys] at hmem
  exact runLoop_diag input ⟨disk0, [], []⟩ initState 0 total hin (by omega) hb
    (by rw [Nat.mul_zero]; rfl) initState_buf_length
    (fun hfd => absurd rfl hfd)
    (fun nm du st en hm => absurd hm (List.not_mem_nil _)) nm du st en hmem

/-- Claim C6 witness instance. -/
theorem claim_C6_witness :
    BLOCK_SIZE * DATA_SIZE * 2 < UINT64_MOD ∧
    (∀ nm du st en, LogLine.diag nm du st en ∈ (mainRun [] [secB, secB]).sys.log →
      DiagOk 2 du st en) :=
  ⟨by rw [BLOCK_SIZE, DATA_SIZE, SUBCODE_SIZE, UINT64_MOD]; omega,
   claim_C6 [] [secB, secB] 2
     (fun c hc => by
       rcases List.mem_cons.mp hc with h | h
       · rw [h]; exact secB_length
       · rw [List.mem_singleton.mp h]; exact secB_length)
     (Nat.le_refl 2)
     (by rw [BLOCK_SIZE, DATA_SIZE, SUBCODE_SIZE, UINT64_MOD]; omega)⟩

/-- Claim C6 counterexample: the diagnostic line of a one-sector track
reports end offset 2448, the offset in bytes, where the sector-unit offset
would be 1. -/
theorem claim_C6_counterexample :
    (mainRun [] [secB, secB]).sys.log
      = [LogLine.diag (trackName 1) 0 0 BLOCK_SIZE,
         LogLine.diag (trackName 2) 0 BLOCK_SIZE (BLOCK_SIZE + BLOCK_SIZE)] ∧
    BLOCK_SIZE ≠ 1 ∧ BLOCK_SIZE + BLOCK_SIZE ≠ 2 := by
  refine ⟨?_, ?_, ?_⟩
  · rw [run2B [] rfl rfl]
  · rw [BLOCK_SIZE, DATA_SIZE, SUBCODE_SIZE]
    omega
  · rw [BLOCK_SIZE, DATA_SIZE, SUBCODE_SIZE]
    omega

/-- Claim C7: sectors before the first boundary sector contribute nothing to
the final disk, and a stream with no boundary sector creates no file, writes
no data and prints no diagnostic at all. -/
theorem claim_C7 (pre rest : List (List Nat))
    (hpre : ∀ c ∈ pre, c.length = BLOCK_SIZE ∧ is_track_start c = false)
    (hrest : ∀ c ∈ rest, c.length = BLOCK_SIZE) :
    (mainRun [] (pre ++ rest)).sys.disk = (mainRun [] rest).sys.disk ∧
    (rest = [] → (mainRun [] (pre ++ rest)).sys = ⟨[], [], []⟩) := by
  constructor
  · rw [mainRun_sys, mainRun_sys]
    rw [runLoop_skip pre ⟨[], [], []⟩ initState rest rfl initState_buf_length
      (by rw [show initState.offset = 0 from rfl, UINT64_MOD]; omega) hpre]
    rw [show ({ initState with
          buf := List.foldl readIntoBuf initState.buf pre
          offset := (initState.offset + BLOCK_SIZE * pre.length) % UINT64_MOD } : State)
        = { ({ initState with
            offset := (initState.offset + BLOCK_SIZE * pre.length) % UINT64_MOD } : State)
            with
          buf := List.foldl readIntoBuf initState.buf pre } from rfl]
    rw [runLoop_fst_buf_irrel rest hrest ⟨[], [], []⟩
      { initState with
        offset := (initState.offset + BLOCK_SIZE * pre.length) % UINT64_MOD }
      (List.foldl readIntoBuf initState.buf pre) initState_buf_length
      (foldl_readIntoBuf_length pre initState.buf initState_buf_length
        (fun c hc => (hpre c hc).1))]
    exact (runLoop_df rest ⟨[], [], []⟩ ⟨[], [], []⟩
      { initState with
        offset := (initState.offset + BLOCK_SIZE * pre.length) % UINT64_MOD }
      initState rfl rfl rfl rfl rfl rfl).1
  · intro h0
    subst h0
    rw [mainRun_sys]
    rw [runLoop_skip pre ⟨[], [], []⟩ initState [] rfl initState_buf_length
      (by rw [show initState.offset = 0 from rfl, UINT64_MOD]; omega) hpre]
    rw [runLoop_nil, close_track_invalid _ _ rfl]

/-- Claim C7 witness instance. -/
theorem claim_C7_witness :
    (∀ c ∈ [secN], c.length = BLOCK_SIZE ∧ is_track_start c = false) ∧
    (mainRun [] ([secN] ++ [secB])).sys.disk = (mainRun [] [secB]).sys.disk :=
  ⟨fun c hc => by rw [List.mem_singleton.mp hc]; exact ⟨secN_length, secN_not_boundary⟩,
   (claim_C7 [secN] [secB]
     (fun c hc => by
       rw [List.mem_singleton.mp hc]
       exact ⟨secN_length, secN_not_boundary⟩)
     (fun c hc => by rw [List.mem_singleton.mp hc]; exact secB_length)).1⟩

/-- Claim C8 (amended): the n-th boundary sector opens track n and the files
on disk are track_XX.wav for XX = 1 .. count in order, where the printf
rendering is two-digit zero-padded only below 100 and grows to three or more
digits from track 100 on. -/
theorem claim_C8 (input : List (List Nat))
    (hin : ∀ c ∈ input, c.length = BLOCK_SIZE)
    (hcount : countB input < UINT32_MOD) :
    (mainRun [] input).sys.disk.map Prod.fst
      = (List.range' 1 (countB input)).map trackName ∧
    (∀ n, n < 100 → 1 ≤ n → (trackName n).length = 12) ∧
    (∀ n, 100 ≤ n → 13 ≤ (trackName n).length) := by
  refine ⟨?_, trackName_length_lt100, fun n hn => trackName_length_ge13 n hn⟩
  rw [mainRun_sys]
  have h := runLoop_keys input ⟨[], [], []⟩ initState 0 hin rfl rfl
    initState_buf_length (by rw [Nat.zero_add]; exact hcount)
  rw [Nat.zero_add] at h
  exact h

/-- Claim C8 witness instance. -/
theorem claim_C8_witness :
    countB [secB] < UINT32_MOD ∧
    (mainRun [] [secB]).sys.disk.map Prod.fst
      = (List.range' 1 (countB [secB])).map trackName :=
  ⟨by rw [countB_one, UINT32_MOD]; omega,
   (claim_C8 [secB] (fun c hc => by rw [List.mem_singleton.mp hc]; exact secB_length)
     (by rw [countB_one, UINT32_MOD]; omega)).1⟩

/-- Claim C8 counterexample: a run of 100 boundary sectors creates
track_100.wav, whose name is 13 characters long, not the 12 characters of
the claimed two-digit zero-padded form. -/
theorem claim_C8_counterexample :
    hasFile (mainRun [] (List.replicate 100 secB)).sys.disk (trackName 100) = true ∧
    (trackName 100).length = 13 ∧ (trackName 100).length ≠ 12 := by
  refine ⟨?_, by decide, by decide⟩
  rw [mainRun_sys]
  have h := runLoop_keys (List.replicate 100 secB) ⟨[], [], []⟩ initState 0
    (fun c hc => by rw [List.eq_of_mem_replicate hc]; exact secB_length)
    rfl rfl initState_buf_length
    (by rw [countB_replicate, Nat.zero_add, UINT32_MOD]; omega)
  rw [countB_replicate, Nat.zero_add] at h
  rw [hasFile_iff, h]
  exact List.mem_map.mpr ⟨100, List.mem_range'_1.mpr ⟨by omega, by omega⟩, rfl⟩

/-- Claim C9: finalizing a session overwrites exactly the 44-byte header at
offset 0 with the header re-derived from the final sample count; the payload
bytes from offset 44 on and every other file are untouched. -/
theorem claim_C9 (sys : Sys) (s : State) (f : Nat) (n : String) (p : Nat)
    (c : List Nat) (hfd : s.track_fd = Int.ofNat f)
    (he : sys.fds.get? f = some ⟨n, p, true⟩)
    (hc : getFile sys.disk n = some c) :
    getFile (close_track sys s).1.disk n
      = some (wavHeader s.num_samples ++ c.drop 44) ∧
    (wavHeader s.num_samples).length = 44 ∧
    (∀ m, m ≠ n → getFile (close_track sys s).1.disk m = getFile sys.disk m) := by
  rw [close_track_open sys s f n p hfd he]
  refine ⟨?_, wavHeader_length _, ?_⟩
  · dsimp only
    rw [getFile_fsWrite_self, hc, Option.map_some',
      fileWrite_header _ _ (wavHeader_length _)]
  · intro m hm
    dsimp only
    exact getFile_fsWrite_ne sys.disk n m 0 (wavHeader s.num_samples) hm

/-- Claim C9 witness instance. -/
theorem claim_C9_witness :
    getFile (close_track ⟨[(trackName 1, wavHeader 0 ++ [1, 2, 3])],
        [⟨trackName 1, 47, true⟩], []⟩
      ⟨secN, trackName 1, 0, 0, BLOCK_SIZE, Int.ofNat 0, 1, 588⟩).1.disk (trackName 1)
      = some (wavHeader 588 ++ (wavHeader 0 ++ [1, 2, 3]).drop 44) :=
  (claim_C9 ⟨[(trackName 1, wavHeader 0 ++ [1, 2, 3])], [⟨trackName 1, 47, true⟩], []⟩
    ⟨secN, trackName 1, 0, 0, BLOCK_SIZE, Int.ofNat 0, 1, 588⟩
    0 (trackName 1) 47 (wavHeader 0 ++ [1, 2, 3]) rfl rfl
    (getFile_single _ _)).1

/-- Claim C10 (amended): close_track indeed never resets the stored
descriptor, but a failed open already stores the invalid sentinel -1 itself,
so the loop breaks with track_fd = -1 and the post-loop finalization is a
no-op; no duplicate finalize of the previous track happens. -/
theorem claim_C10 :
    (∀ (sys : Sys) (s : State), (close_track sys s).2.track_fd = s.track_fd) ∧
    (∀ (sys : Sys) (s : State) (c : List Nat) (f : Nat) (n : String) (p : Nat),
      c.length ≠ 0 → s.track_fd = Int.ofNat f →
      sys.fds.get? f = some ⟨n, p, true⟩ →
      is_track_start (readIntoBuf s.buf c) = true →
      hasFile sys.disk (trackName ((s.track_number + 1) % UINT32_MOD)) = true →
      (step sys s c).2.1.track_fd = -1 ∧ (step sys s c).2.2 = false ∧
        close_track (step sys s c).1 (step sys s c).2.1
          = ((step sys s c).1, (step sys s c).2.1)) := by
  refine ⟨fun sys s => close_track_snd_track_fd sys s, ?_⟩
  intro sys s c f n p hc hfd he hbd hstale
  have hstep := step_boundary_next_fail sys s c f n p hc hfd he hbd hstale
  exact ⟨by rw [hstep], by rw [hstep],
    close_track_invalid _ _ (by rw [hstep])⟩

/-- Claim C10 witness instance. -/
theorem claim_C10_witness :
    (close_track ⟨[], [], []⟩ initState).2.track_fd = initState.track_fd ∧
    ((step ⟨[(trackName 2, [])], [⟨trackName 1, 44, true⟩], []⟩
        ⟨secB, trackName 1, 0, 0, BLOCK_SIZE, Int.ofNat 0, 1, 588⟩ secB).2.1.track_fd
        = -1 ∧
      (step ⟨[(trackName 2, [])], [⟨trackName 1, 44, true⟩], []⟩
        ⟨secB, trackName 1, 0, 0, BLOCK_SIZE, Int.ofNat 0, 1, 588⟩ secB).2.2 = false ∧
      close_track
          (step ⟨[(trackName 2, [])], [⟨trackName 1, 44, true⟩], []⟩
            ⟨secB, trackName 1, 0, 0, BLOCK_SIZE, Int.ofNat 0, 1, 588⟩ secB).1
          (step ⟨[(trackName 2, [])], [⟨trackName 1, 44, true⟩], []⟩
            ⟨secB, trackName 1, 0, 0, BLOCK_SIZE, Int.ofNat 0, 1, 588⟩ secB).2.1
        = ((step ⟨[(trackName 2, [])], [⟨trackName 1, 44, true⟩], []⟩
            ⟨secB, trackName 1, 0, 0, BLOCK_SIZE, Int.ofNat 0, 1, 588⟩ secB).1,
          (step ⟨[(trackName 2, [])], [⟨trackName 1, 44, true⟩], []⟩
            ⟨secB, trackName 1, 0, 0, BLOCK_SIZE, Int.ofNat 0, 1, 588⟩ secB).2.1)) :=
  ⟨claim_C10.1 ⟨[], [], []⟩ initState,
   claim_C10.2 ⟨[(trackName 2, [])], [⟨trackName 1, 44, true⟩], []⟩
     ⟨secB, trackName 1, 0, 0, BLOCK_SIZE, Int.ofNat 0, 1, 588⟩ secB
     0 (trackName 1) 44
     (by rw [secB_length]; exact BLOCK_SIZE_ne_zero) rfl rfl
     (by
       show is_track_start (readIntoBuf secB secB) = true
       rw [secB_readIntoBuf_self]
       exact secB_boundary)
     (by
       show hasFile [(trackName 2, [])] (trackName ((1 + 1) % UINT32_MOD)) = true
       rw [mod32_12]
       simp [hasFile])⟩

/-- Claim C10 counterexample: in the run where track 2 collides with an
existing file after track 1 was finalized, exactly one diagnostic line is
printed, not a duplicate pair, and the open error follows it. -/
theorem claim_C10_counterexample :
    (mainRun [(trackName 2, [])] [secB, secB]).sys.log.countP LogLine.isDiag = 1 ∧
    (mainRun [(trackName 2, [])] [secB, secB]).sys.log.get? 1
      = some (LogLine.openErr (trackName 2)) := by
  rw [runC10]
  constructor
  · simp [List.countP_cons, LogLine.isDiag]
  · rfl

end Mdf2Wav
